import Mathlib

/-!
Verification development for the data validation / cleaning / filtering
pipeline of the churn-app "Data Navigator" page
(`pages/03_Data.py`).

The page manipulates pandas DataFrames.  We shallowly embed the fragment of
pandas semantics that the page exercises:

* a `DF` is an ordered list of named, dtype-tagged columns (plus an optional
  index column produced by `set_index`);
* cells are strings, numbers, or missing (`NaN`);
* numbers are embedded as exact fractions `Fnum` (an integer numerator and a
  natural denominator, kept unnormalized so that all arithmetic used by the
  page — medians, i.e. addition and halving, and decimal parsing — is
  computable by the kernel).  Value equality and ordering of numbers are the
  cross-multiplication relations, mirroring numeric (not representational)
  equality of floats.  We do not model IEEE rounding: all numerics in scope
  are exact decimal data, medians and truncations of them.

Dtypes model the pandas dtypes the page can meet: `object`, `category`,
`int64`, `float64`, and two stand-ins (`boolDt`, `datetime`) for dtypes that
the validator's mapping does not know.

The embedding of each operation is written against the source:
`validate_data_structure` (lines 80-100), the cleaning pipeline
(lines 329-364), the summaries (386-401, 479-493), the filter section
(436-472) and `save_uploaded_file_as_sqlite` (104-161).
-/

/-- Exact fraction standing in for a Python float: numerator and (positive by
construction) denominator, not normalized, so that every operation below is
gcd-free and kernel-computable. -/
structure Fnum where
  num : Int
  den : Nat
deriving DecidableEq

/-- Numeric (value) equality of two fractions, by cross multiplication. -/
def Fnum.beqv (a b : Fnum) : Bool := a.num * (b.den : Int) == b.num * (a.den : Int)

/-- Numeric less-or-equal, by cross multiplication (denominators are positive
for every number the model builds). -/
def Fnum.le (a b : Fnum) : Bool := decide (a.num * (b.den : Int) ≤ b.num * (a.den : Int))

/-- Embed an integer. -/
def Fnum.ofInt (n : Int) : Fnum := ⟨n, 1⟩

/-- Addition (used by the median of an even number of values). -/
def Fnum.add (a b : Fnum) : Fnum := ⟨a.num * (b.den : Int) + b.num * (a.den : Int), a.den * b.den⟩

/-- Halving (used by the median of an even number of values). -/
def Fnum.half (a : Fnum) : Fnum := ⟨a.num, 2 * a.den⟩

/-- Truncation toward zero, the semantics of `astype('int64')` on floats. -/
def Fnum.trunc (a : Fnum) : Int := a.num.tdiv (a.den : Int)

instance : OfNat Fnum n := ⟨⟨(n : Int), 1⟩⟩

/-- The pandas dtypes the page can encounter. `boolDt` and `datetime` stand
for dtypes outside the validator's mapping dictionary. -/
inductive Dtype
  | object
  | category
  | int64
  | float64
  | boolDt
  | datetime
deriving DecidableEq

/-- `str(dtype)`, as pandas prints it. -/
def Dtype.name : Dtype → String
  | .object => "object"
  | .category => "category"
  | .int64 => "int64"
  | .float64 => "float64"
  | .boolDt => "bool"
  | .datetime => "datetime64[ns]"

/-- One cell of a column: a string, a number, or missing (`NaN`). -/
inductive Cell
  | str (s : String)
  | num (q : Fnum)
  | na
deriving DecidableEq

/-- Value equality of cells (string equality, numeric equality of numbers;
`NaN` equal only to itself, as in `DataFrame.equals`). -/
def Cell.beq (a b : Cell) : Bool :=
  match a, b with
  | .str s, .str t => s == t
  | .num p, .num q => p.beqv q
  | .na, .na => true
  | _, _ => false

def Cell.isNum : Cell → Bool
  | .num _ => true
  | _ => false

/-- A cell holding an integer value in canonical form (denominator 1), the
shape every cell of an `int64` column has. -/
def Cell.isIntCell : Cell → Bool
  | .num q => q.den == 1
  | _ => false

/-- A named column with its dtype tag and cells. -/
structure Col where
  name : String
  dtype : Dtype
  values : List Cell
deriving DecidableEq

/-- A DataFrame: an optional index column (present after `set_index`) and the
ordered data columns. -/
structure DF where
  index : Option Col
  cols : List Col
deriving DecidableEq

/-- Column-name sequence, `list(df.columns)`. -/
def DF.colNames (df : DF) : List String := df.cols.map (fun c => c.name)

/-- Number of rows (pandas keeps this uniform across columns). -/
def DF.nrows (df : DF) : Nat :=
  match df.cols with
  | c :: _ => c.values.length
  | [] =>
    match df.index with
    | some c => c.values.length
    | none => 0

/-- `df.empty`: true when the frame has no columns or no rows. -/
def DF.isEmptyFrame (df : DF) : Bool := df.cols.isEmpty || df.nrows == 0

/-- Value-level equality of two frames, the semantics of pandas
`DataFrame.equals`: same column names, same dtypes, cells equal in value. -/
def Col.equiv (a b : Col) : Bool :=
  a.name == b.name && a.dtype == b.dtype &&
    a.values.length == b.values.length &&
    (a.values.zip b.values).all (fun p => p.1.beq p.2)

def DF.equiv (a b : DF) : Bool :=
  a.cols.length == b.cols.length &&
    ((a.cols.zip b.cols).all fun p => p.1.equiv p.2)

/-! ## SchemaValidator: `validate_data_structure` (source lines 80-100)

`standardize_dtypes` maps each column dtype through the dictionary
`dtype_mapping = {'object': 'Categorical', 'category': 'Categorical',
'int64': 'Numerical', 'float64': 'Numerical'}` with `.get(str(x), x)`:
a hit yields the mapped string, a miss yields the dtype object itself.
The validator compares column-name lists and the mapped lists. -/

def dtype_mapping : List (String × String) :=
  [("object", "Categorical"), ("category", "Categorical"),
   ("int64", "Numerical"), ("float64", "Numerical")]

/-- Result of `dtype_mapping.get(str(x), x)`: either a mapped class name or
the original dtype, compared literally. -/
def standardizeDtype (d : Dtype) : Sum String Dtype :=
  match dtype_mapping.lookup d.name with
  | some s => .inl s
  | none => .inr d

/-- `standardize_dtypes(df)` from the source. -/
def standardize_dtypes (df : DF) : List (Sum String Dtype) :=
  df.cols.map (fun c => standardizeDtype c.dtype)

/-- `validate_data_structure(uploaded_df, template_df)` from the source:
compare column names, then mapped dtype classes, with early false returns. -/
def validate_data_structure (uploaded_df template_df : DF) : Bool :=
  if uploaded_df.colNames ≠ template_df.colNames then false
  else if standardize_dtypes uploaded_df ≠ standardize_dtypes template_df then false
  else true

/-- The type-class mapping exactly as the claim words it: object/category to
Categorical, int64/float64 to Numerical, any other type name kept unchanged
as its own literal category. -/
def claimTypeMap (d : Dtype) : Sum String Dtype :=
  match d with
  | .object => .inl "Categorical"
  | .category => .inl "Categorical"
  | .int64 => .inl "Numerical"
  | .float64 => .inl "Numerical"
  | d => .inr d

/-! ## Cleaner (source lines 329-364)

The cleaning pipeline, in source order:

1. `if 'user_id' in df.columns: df.set_index('user_id', inplace=True)`
2. `df.columns = [col.capitalize() if col[0].islower() else col for col in df.columns]`
3. for every column other than `'CHURN'` of dtype object/category, replace
   `NaN` by the sentinel string `'Unknown'`
4. `df['CHURN'].replace('Unknown', np.nan)` then
   `SimpleImputer(strategy='most_frequent')` on `df[['CHURN']]`
5. `df = df.apply(pd.to_numeric, errors='ignore')`
6. `SimpleImputer(strategy='median')` over the float64/int64 columns
7. columns that were int64 before step 6 are cast back with `astype('int64')`

Pandas/sklearn facts baked into the embedding:

* `SimpleImputer.fit_transform` returns a float64 array on numeric input (so
  assigning it back turns int64 columns into float64 — the reason for the
  cast-back loop) and an object array on object input;
* `most_frequent` breaks frequency ties by the smallest value;
* an all-missing input column is dropped by the imputer, so the assignment
  back into the frame fails — modelled as an error, like the `KeyError`
  raised at step 4 when no `CHURN` column exists;
* with zero numeric columns (or zero rows) `fit_transform` raises
  `ValueError` at step 6;
* `pd.to_numeric(errors='ignore')` converts an object column iff every
  non-missing entry parses as a decimal number, to int64 when all entries
  are integer-formatted and none is missing, else to float64.  We model the
  decimal subset of Python numeric literals (optional sign, digits, optional
  fractional part); scientific notation, embedded whitespace and the
  string "NaN" are out of scope.

The model is faithful on frames whose column names are nonempty and
duplicate-free after normalization and whose dtypes are object / int64 /
float64 with cells consistent with the dtype (predicate `DF.WF` below);
pandas raises or has label-duplication semantics outside that domain. -/

inductive CleanError
  | keyError (k : String)
  | imputerError (msg : String)
deriving DecidableEq

/-- Step 1: promote a `user_id` column (when present) to the row index. -/
def setIndexStep (df : DF) : DF :=
  match df.cols.find? (fun c => c.name == "user_id") with
  | some c => { index := some c, cols := df.cols.filter (fun d => d.name ≠ "user_id") }
  | none => df

/-- ASCII lowercase test, Python `str.islower()` on one character (all
column names in scope are ASCII; Unicode case mapping is out of scope). -/
def pyIsLower (c : Char) : Bool := 97 ≤ c.toNat && c.toNat ≤ 122

/-- ASCII upper-casing of one character. -/
def pyToUpper (c : Char) : Char :=
  if 97 ≤ c.toNat ∧ c.toNat ≤ 122 then Char.ofNat (c.toNat - 32) else c

/-- ASCII lower-casing of one character. -/
def pyToLower (c : Char) : Char :=
  if 65 ≤ c.toNat ∧ c.toNat ≤ 90 then Char.ofNat (c.toNat + 32) else c

/-- Python `str.capitalize()`: first character upper-cased, the rest
lower-cased. -/
def pyCapitalize (s : String) : String :=
  match s.data with
  | [] => ""
  | c :: cs => String.mk (pyToUpper c :: cs.map pyToLower)

/-- `col[0].islower()` (false on the empty name, which pandas would reject
with an IndexError before this point; `DF.WF` excludes it). -/
def frontIsLower (s : String) : Bool :=
  match s.data with
  | [] => false
  | c :: _ => pyIsLower c

/-- One name through the step-2 comprehension. -/
def capName (s : String) : String :=
  if frontIsLower s then pyCapitalize s else s

/-- Step 2: normalize all column names. -/
def capStep (df : DF) : DF :=
  { df with cols := df.cols.map (fun c => { c with name := capName c.name }) }

/-- Replace a missing cell by the sentinel. -/
def fillCell (v : Cell) : Cell := if v = .na then .str "Unknown" else v

/-- Step 3: sentinel-fill missing values of every non-target categorical-like
column. -/
def fillUnknownStep (df : DF) : DF :=
  { df with cols := df.cols.map (fun c =>
      if c.name ≠ "CHURN" ∧ (c.dtype = .object ∨ c.dtype = .category)
      then { c with values := c.values.map fillCell }
      else c) }

/-- `replace('Unknown', np.nan)` on one cell. -/
def revertUnknown (v : Cell) : Cell := if v = .str "Unknown" then .na else v

/-- Fill one missing cell with the imputation value `m`. -/
def imputeNa (m : Cell) (v : Cell) : Cell := if v = .na then m else v

/-- Total order used for sklearn's tie-break (`min` over the most frequent
values).  Strings compare lexicographically by code point, numbers by value;
the mixed cases do not arise in well-formed columns. -/
def charsLe : List Char → List Char → Bool
  | [], _ => true
  | _ :: _, [] => false
  | a :: as, b :: bs =>
    if a.toNat < b.toNat then true
    else if b.toNat < a.toNat then false
    else charsLe as bs

def cellLe (a b : Cell) : Bool :=
  match a, b with
  | .na, _ => true
  | _, .na => false
  | .num p, .num q => p.le q
  | .num _, .str _ => true
  | .str _, .num _ => false
  | .str s, .str t => charsLe s.data t.data

/-- The most frequent value of a list, ties broken by the smallest value
(the `SimpleImputer(strategy='most_frequent')` rule).  Counting uses value
equality of cells. -/
def vcount (l : List Cell) (v : Cell) : Nat := l.countP (fun w => w.beq v)

def pickMode (l : List Cell) : Cell :=
  match l with
  | [] => .na
  | v :: vs =>
    vs.foldl (fun acc w =>
      if vcount l acc < vcount l w then w
      else if vcount l w = vcount l acc ∧ cellLe w acc then w else acc) v

/-- The `'Unknown'`-reverted target values. -/
def churnReverted (c : Col) : List Cell := c.values.map revertUnknown

/-- The non-missing entries the target imputer fits on. -/
def churnObserved (c : Col) : List Cell := (churnReverted c).filter (fun v => v ≠ .na)

/-- Step 4 on the target column itself: revert the sentinel, impute missing
entries with the mode; a numeric target comes back from `fit_transform` as
float64, an object target stays object. -/
def churnTransform (c : Col) : Col :=
  let m := pickMode (churnObserved c)
  { c with
    dtype := if c.dtype = .object then .object else .float64
    values := (churnReverted c).map (imputeNa m) }

/-- Step 4: find the target column (else `KeyError`), fail like the imputer
if it has no observed value, otherwise transform it in place. -/
def churnStep (df : DF) : Except CleanError DF :=
  match df.cols.find? (fun c => c.name == "CHURN") with
  | none => .error (.keyError "CHURN")
  | some c =>
    if churnObserved c = [] then .error (.imputerError "CHURN is all missing")
    else .ok { df with cols := df.cols.map (fun d =>
      if d.name = "CHURN" then churnTransform d else d) }

/-- Numeric value of a digit list (most significant first). -/
def digitsVal (cs : List Char) : Nat :=
  cs.foldl (fun n c => 10 * n + (c.toNat - 48)) 0

/-- Parse an unsigned decimal body; the Bool is true when the literal is
integer-formatted (no fractional part). -/
def parseDecCore (sign : Int) (body : List Char) : Option (Bool × Fnum) :=
  if body ≠ [] ∧ body.all Char.isDigit then
    some (true, ⟨sign * (digitsVal body : Int), 1⟩)
  else
    match body.span (fun c => c ≠ '.') with
    | (ip, fpart) =>
      match fpart with
      | '.' :: fp =>
        if (ip ++ fp) ≠ [] ∧ (ip ++ fp).all Char.isDigit then
          some (false, ⟨sign * ((digitsVal ip : Int) * ((10 : Int) ^ fp.length) + (digitsVal fp : Int)), 10 ^ fp.length⟩)
        else none
      | _ => none

/-- Parse the decimal subset of what `pd.to_numeric` accepts (optional sign,
digits, optional fractional part). -/
def parseDec (s : String) : Option (Bool × Fnum) :=
  match s.data with
  | '-' :: rest => parseDecCore (-1) rest
  | '+' :: rest => parseDecCore 1 rest
  | l => parseDecCore 1 l

/-- Structural `mapM` over `Option` (sequence of parses; `none` when any
entry fails). -/
def mapOptionAll (f : A → Option B) : List A → Option (List B)
  | [] => some []
  | a :: as =>
    match f a, mapOptionAll f as with
    | some b, some bs => some (b :: bs)
    | _, _ => none

/-- One cell through `pd.to_numeric`; the Bool marks an integer-formatted
non-missing entry. -/
def parseCellNum : Cell → Option (Bool × Cell)
  | .na => some (false, .na)
  | .num q => some (q.den == 1, .num q)
  | .str s => (parseDec s).map (fun p => (p.1, .num p.2))

/-- Step 5 on one column: object columns are converted iff every entry
parses (int64 when everything is integer-formatted and nothing is missing,
else float64); other dtypes pass through unchanged. -/
def toNumericCol (c : Col) : Col :=
  if c.dtype = .object then
    match mapOptionAll parseCellNum c.values with
    | some rs =>
      { c with
        dtype := if rs.all (fun r => r.1) then .int64 else .float64
        values := rs.map (fun r => r.2) }
    | none => c
  else c

/-- Step 5: `df.apply(pd.to_numeric, errors='ignore')`. -/
def toNumericStep (df : DF) : DF :=
  { df with cols := df.cols.map toNumericCol }

def isNumDtype (d : Dtype) : Bool := d == .int64 || d == .float64

/-- The non-missing numeric entries of a column. -/
def colObservedNums (c : Col) : List Fnum :=
  c.values.filterMap (fun v => match v with | .num q => some q | _ => none)

/-- Insertion sort by numeric value (`np.nanmedian` sorts the observed
values). -/
def insertFnum (a : Fnum) : List Fnum → List Fnum
  | [] => [a]
  | b :: bs => if a.le b then a :: b :: bs else b :: insertFnum a bs

def sortFnums : List Fnum → List Fnum
  | [] => []
  | a :: as => insertFnum a (sortFnums as)

/-- Median of the observed values: middle element, or the mean of the two
middle elements for an even count. -/
def medianOf (l : List Fnum) : Fnum :=
  let s := sortFnums l
  let n := s.length
  if n % 2 = 1 then s.getD (n / 2) 0
  else Fnum.half (Fnum.add (s.getD (n / 2 - 1) 0) (s.getD (n / 2) 0))

def truncCell : Cell → Cell
  | .num q => .num ⟨q.trunc, 1⟩
  | v => v

/-- Steps 6-7 on one column: numeric columns get their missing entries
imputed with the column median (all numeric columns come back from the
imputer as float64), then columns that were int64 before the imputation are
cast back to int64. -/
def imputeCol (c : Col) : Col :=
  if isNumDtype c.dtype then
    let m := medianOf (colObservedNums c)
    let vals := c.values.map (imputeNa (.num m))
    if c.dtype = .int64 then { c with values := vals.map truncCell }
    else { c with dtype := .float64, values := vals }
  else c

/-- Steps 6-7: impute the numeric columns, failing like sklearn when there
is no numeric column, no row, or an all-missing numeric column. -/
def imputeStep (df : DF) : Except CleanError DF :=
  let numericalCols := df.cols.filter (fun c => isNumDtype c.dtype)
  if numericalCols = [] then .error (.imputerError "0 feature(s)")
  else if numericalCols.any (fun c => c.values.length = 0) then
    .error (.imputerError "0 sample(s)")
  else if numericalCols.any (fun c => colObservedNums c = []) then
    .error (.imputerError "all-missing numerical column")
  else .ok { df with cols := df.cols.map imputeCol }

/-- The cleaning pipeline, steps 1-7 in source order. -/
def clean (df : DF) : Except CleanError DF := do
  let df4 ← churnStep (fillUnknownStep (capStep (setIndexStep df)))
  imputeStep (toNumericStep df4)

/-- Cells consistent with a column dtype, as produced by the CSV loader:
int64 cells are canonical integers, float64 cells numbers or missing,
object cells strings or missing. -/
def cellFits (d : Dtype) (v : Cell) : Bool :=
  match d, v with
  | .int64, v => v.isIntCell
  | .float64, .num _ => true
  | .float64, .na => true
  | .float64, _ => false
  | .object, .str _ => true
  | .object, .na => true
  | .object, _ => false
  | _, _ => false

def Col.WF (c : Col) : Prop :=
  c.name ≠ "" ∧ (c.dtype = .object ∨ c.dtype = .int64 ∨ c.dtype = .float64) ∧
    c.values.all (cellFits c.dtype) = true

instance (c : Col) : Decidable c.WF := by unfold Col.WF; infer_instance

/-- Frames the cleaning model is faithful on: every column well-formed and
the normalized column names duplicate-free (pandas duplicate-label and
categorical-replace semantics are out of scope). -/
def DF.WF (df : DF) : Prop :=
  (∀ c ∈ df.cols, c.WF) ∧ (df.cols.map (fun c => capName c.name)).Nodup

instance (df : DF) : Decidable df.WF := by unfold DF.WF; infer_instance

/-! ## Summarizer (source lines 386-401 and 479-493)

`df.describe().T` over the numeric columns never raises when columns exist:
with zero rows it reports count 0 and NaN statistics (we model count, mean,
min, max; the standard deviation is irrational in general and out of the
fraction model, and behaves like the mean: NaN on an empty column).

The categorical block is
`df.select_dtypes(include=['object']).describe().T`, then
`.mode().iloc[0]` for the "top" row and
`.apply(pd.Series.value_counts).max()` for "freq".  `describe` raises
`ValueError` when there is no object column at all, and `.mode()` on a frame
whose object columns all have no observed value (in particular any zero-row
frame) returns a zero-row frame, so `.iloc[0]` raises `IndexError`. -/

def Col.observed (c : Col) : List Cell := c.values.filter (fun v => v ≠ Cell.na)

structure NumRow where
  feature : String
  count : Nat
  mean : Option Fnum
  minVal : Option Fnum
  maxVal : Option Fnum
deriving DecidableEq

def sumFnums (l : List Fnum) : Fnum := l.foldl Fnum.add ⟨0, 1⟩

def numRow (c : Col) : NumRow :=
  let obs := colObservedNums c
  { feature := c.name
    count := obs.length
    mean := if obs = [] then none else some ⟨(sumFnums obs).num, (sumFnums obs).den * obs.length⟩
    minVal := (sortFnums obs).head?
    maxVal := (sortFnums obs).getLast? }

/-- Line 386: numeric summary rows of the frame. -/
def numericSummary (df : DF) : List NumRow :=
  (df.cols.filter (fun c => isNumDtype c.dtype)).map numRow

structure CatRow where
  feature : String
  count : Nat
  unique : Nat
  top : Option Cell
  freq : Option Nat
deriving DecidableEq

/-- `DataFrame.mode()` sorts each column's modes ascending, so `.iloc[0]`
takes the smallest most frequent value — the same rule as `pickMode`. -/
def colTop (c : Col) : Option Cell :=
  if c.observed = [] then none else some (pickMode c.observed)

def colFreq (c : Col) : Option Nat :=
  (colTop c).map (fun m => vcount c.observed m)

def catRow (c : Col) : CatRow :=
  { feature := c.name
    count := c.observed.length
    unique := c.observed.dedup.length
    top := colTop c
    freq := colFreq c }

/-- Lines 392-395 (the filtered variant, 484-487, is the same code on the
filtered frame): the categorical summary, with the two raising paths of the
source modelled as errors. -/
def categoricalSummary (df : DF) : Except String (List CatRow) :=
  let objCols := df.cols.filter (fun c => c.dtype == Dtype.object)
  if objCols = [] then
    .error "ValueError: Cannot describe a DataFrame without columns"
  else if objCols.all (fun c => c.observed = []) then
    .error "IndexError: single positional indexer is out-of-bounds"
  else .ok (objCols.map catRow)

/-! ## FilterEngine (source lines 436-472)

The widget state is: one selected categorical column with an optional
selected value (the empty selection meaning "All Values"), an optional
selected index value ("All Users"), and one inclusive numeric range per
numeric column.  The source applies the categorical/identifier clauses by a
four-way branch (lines 450-465), then the range clauses in a loop
(lines 469-472).  Rows are modelled by their positions. -/

structure FilterSpec where
  selCol : String
  selVal : Option Cell
  selId : Option Cell
  sliders : List (String × Fnum × Fnum)

/-- The cell of column `nm` in row `i`. -/
def cellAt (df : DF) (nm : String) (i : Nat) : Cell :=
  match df.cols.find? (fun c => c.name == nm) with
  | some c => c.values.getD i .na
  | none => .na

/-- The index value of row `i` (pandas default RangeIndex when no
`user_id` column was promoted). -/
def idCellAt (df : DF) (i : Nat) : Cell :=
  match df.index with
  | some c => c.values.getD i .na
  | none => .num ⟨(i : Int), 1⟩

/-- `df[selected_column] == selected_value` at row `i`. -/
def catClausePred (df : DF) (nm : String) (v : Cell) (i : Nat) : Bool :=
  (cellAt df nm i).beq v

/-- `df.index == selected_customer_id` at row `i`. -/
def idClausePred (df : DF) (idv : Cell) (i : Nat) : Bool :=
  (idCellAt df i).beq idv

/-- `(df[column] >= min_val) & (df[column] <= max_val)` at row `i`
(comparisons with NaN are false, so missing entries drop out). -/
def rangeClausePred (df : DF) (r : String × Fnum × Fnum) (i : Nat) : Bool :=
  match cellAt df r.1 i with
  | .num q => r.2.1.le q && q.le r.2.2
  | _ => false

/-- Lines 450-472 as written: the four-way branch over the categorical and
identifier selections, then the numeric range loop. -/
def codeFilteredRows (df : DF) (fs : FilterSpec) : List Nat :=
  let base := List.range df.nrows
  let afterBranch :=
    match fs.selVal, fs.selId with
    | none, none => base
    | some v, none => base.filter (catClausePred df fs.selCol v)
    | none, some idv => base.filter (idClausePred df idv)
    | some v, some idv =>
      base.filter (fun i => catClausePred df fs.selCol v i && idClausePred df idv i)
  fs.sliders.foldl (fun acc r => acc.filter (rangeClausePred df r)) afterBranch

/-- The list of present clauses of a `FilterSpec`, as row predicates. -/
def clausePreds (df : DF) (fs : FilterSpec) : List (Nat → Bool) :=
  (match fs.selVal with
   | none => []
   | some v => [catClausePred df fs.selCol v]) ++
  (match fs.selId with
   | none => []
   | some idv => [idClausePred df idv]) ++
  fs.sliders.map (rangeClausePred df)

/-- Apply a list of clauses one after the other. -/
def seqFilter (ps : List (Nat → Bool)) (l : List Nat) : List Nat :=
  ps.foldl (fun acc p => acc.filter p) l

/-! ## TableStore: `save_uploaded_file_as_sqlite` (source lines 104-161)

The next table id scans `sqlite_master` for names starting with
`{username}_table`, takes `int(table.split(f"{username}_table")[1])` —
the decimal value of the text between the first and second occurrence of
the separator — and uses
`max + 1` (or `1` with no match); the name is
`f"{username}_table{str(n).zfill(len(str(n)))}"`.  `int()` is modelled on
signed decimal digit strings (Python also strips whitespace and allows
digit-group underscores; out of scope).  Validation failures return before
`to_sql`, so the table set is unchanged on those paths. -/

def leadsWith : List Char → List Char → Bool
  | [], _ => true
  | _ :: _, [] => false
  | p :: ps, c :: cs => p == c && leadsWith ps cs

/-- `s.startswith(pat)`. -/
def strStartsWith (s pat : String) : Bool := leadsWith pat.data s.data

/-- The characters after the first occurrence of `pat`, if any. -/
def afterFirst (pat : List Char) : List Char → Option (List Char)
  | [] => none
  | c :: cs =>
    if leadsWith pat (c :: cs) then some ((c :: cs).drop pat.length)
    else afterFirst pat cs

/-- The characters before the next occurrence of `pat`. -/
def takeUntilSep (pat : List Char) : List Char → List Char
  | [] => []
  | c :: cs => if leadsWith pat (c :: cs) then [] else c :: takeUntilSep pat cs

/-- Python `int(s)` on a plain signed decimal string. -/
def parsePyInt (s : String) : Option Int :=
  match s.data with
  | '-' :: ds => if ds ≠ [] ∧ ds.all Char.isDigit then some (-(digitsVal ds : Int)) else none
  | '+' :: ds => if ds ≠ [] ∧ ds.all Char.isDigit then some ((digitsVal ds : Int)) else none
  | ds => if ds ≠ [] ∧ ds.all Char.isDigit then some ((digitsVal ds : Int)) else none

/-- `int(table.split(f"{username}_table")[1])` for one table name. -/
def tableSuffixNum (username t : String) : Option Int :=
  (afterFirst (username ++ "_table").data t.data).bind
    (fun r => parsePyInt (String.mk (takeUntilSep (username ++ "_table").data r)))

/-- Python `str.zfill`: left-pad with zeros to the width, keeping a sign in
front. -/
def zfill (s : String) (w : Nat) : String :=
  if w ≤ s.length then s
  else
    match s.data with
    | c :: rest =>
      if c = '-' ∨ c = '+' then String.mk (c :: (List.replicate (w - s.length) '0' ++ rest))
      else String.mk (List.replicate (w - s.length) '0' ++ s.data)
    | [] => String.mk (List.replicate w '0')

/-- Lines 115-127: the next table number for a user, an error when some
matching name has a non-numeric suffix (`int` raises). -/
def nextTableNumber (existing : List String) (username : String) : Except String Int :=
  let user_tables := existing.filter (fun t => strStartsWith t (username ++ "_table"))
  if user_tables = [] then .ok 1
  else
    match mapOptionAll (tableSuffixNum username) user_tables with
    | none => .error "ValueError: invalid literal for int()"
    | some [] => .ok 1
    | some (n :: ns) => .ok (ns.foldl max n + 1)

/-- Lines 129-131: the stored table name for number `n`. -/
def tableNameFor (username : String) (n : Int) : String :=
  username ++ "_table" ++ zfill (toString n) (toString n).length

def saveMsgEmpty : String :=
  "The uploaded file is empty or improperly formatted. Please upload a valid file."

def saveMsgSchema : String :=
  "The structure of the uploaded file does not align with the expected template. Please review the column descriptions provided below to ensure that the column names and data types conform to the required specifications."

/-- The per-user table store (the tables of the user's SQLite file). -/
structure Store where
  tables : List (String × DF)
deriving DecidableEq

inductive SaveResult
  | failed (msg : String)
  | saved (table_name : String) (df : DF)
deriving DecidableEq

/-- `to_sql(..., if_exists='replace')`. -/
def upsertTable (ts : List (String × DF)) (nm : String) (df : DF) : List (String × DF) :=
  if ts.any (fun p => p.1 == nm) then ts.map (fun p => if p.1 = nm then (nm, df) else p)
  else ts ++ [(nm, df)]

/-- `save_uploaded_file_as_sqlite`, lines 104-161: compute the next name,
reject an empty frame (line 141) or a schema mismatch (line 146) with the
corresponding on-screen message and no write, else write the table. -/
def save_uploaded_file_as_sqlite (df : DF) (username : String) (template : DF)
    (store : Store) : Except String (SaveResult × Store) :=
  match nextTableNumber (store.tables.map (fun p => p.1)) username with
  | .error e => .error e
  | .ok n =>
    let table_name := tableNameFor username n
    if df.isEmptyFrame then .ok (.failed saveMsgEmpty, store)
    else if ¬ validate_data_structure df template then .ok (.failed saveMsgSchema, store)
    else .ok (.saved table_name df, ⟨upsertTable store.tables table_name df⟩)

/-- Substring test (for checking what an error message points the caller
at). -/
def hasSubList (pat : List Char) : List Char → Bool
  | [] => leadsWith pat []
  | c :: cs => leadsWith pat (c :: cs) || hasSubList pat cs

def strContains (s pat : String) : Bool := hasSubList pat.data s.data

/-- The step-2 name rule exactly as the claim words it: a name starting with
a lowercase letter is capitalized on its first character only, all other
characters unchanged; other names unchanged. -/
def claimCapName (s : String) : String :=
  if frontIsLower s then
    match s.data with
    | [] => ""
    | c :: cs => String.mk (pyToUpper c :: cs)
  else s

/-- Decidable equality for `Except` results, so that concrete runs of the
fallible operations can be checked by `decide`. -/
instance {E A : Type} [DecidableEq E] [DecidableEq A] : DecidableEq (Except E A) := fun x y =>
  match x, y with
  | .error e, .error f =>
    if h : e = f then .isTrue (by rw [h])
    else .isFalse (fun hh => by injection hh; contradiction)
  | .ok a, .ok b =>
    if h : a = b then .isTrue (by rw [h])
    else .isFalse (fun hh => by injection hh; contradiction)
  | .error _, .ok _ => .isFalse (fun hh => Except.noConfusion hh)
  | .ok _, .error _ => .isFalse (fun hh => Except.noConfusion hh)

/-- A small concrete frame for filter-engine checks. -/
def demoFilterDF : DF :=
  ⟨none, [⟨"REGION", Dtype.object, [Cell.str "DAKAR", Cell.str "THIES"]⟩,
          ⟨"MONTANT", Dtype.float64, [Cell.num ⟨10, 1⟩, Cell.num ⟨20, 1⟩]⟩]⟩

def demoFilterSpec : FilterSpec :=
  ⟨"REGION", some (Cell.str "DAKAR"), none, [("MONTANT", ⟨0, 1⟩, ⟨100, 1⟩)]⟩

/-! ## Per-column view of the cleaning pipeline

Steps 2-7 all act column-wise, so the pipeline on columns factors through
the following per-column functions (definitionally equal to the bodies of
the step functions above). -/

def capF (c : Col) : Col := { c with name := capName c.name }

def fillIf (c : Col) : Col :=
  if c.name ≠ "CHURN" ∧ (c.dtype = .object ∨ c.dtype = .category)
  then { c with values := c.values.map fillCell }
  else c

def churnIf (c : Col) : Col :=
  if c.name = "CHURN" then churnTransform c else c

/-- One column through steps 2-7. -/
def colPipe (c : Col) : Col :=
  imputeCol (toNumericCol (churnIf (fillIf (capF c))))

/-- The shape a column has after one cleaning pass: a normalized non-index
name, and either a fully observed object column on which numeric coercion
fails, or a numeric column with no missing entry (canonical integers for
int64). -/
def cleanedCol (u : Col) : Prop :=
  capName u.name = u.name ∧ u.name ≠ "user_id" ∧
  ((u.dtype = .object ∧ Cell.na ∉ u.values ∧ toNumericCol u = u) ∨
   (u.dtype = .int64 ∧ u.values.all Cell.isIntCell = true) ∨
   (u.dtype = .float64 ∧ u.values.all Cell.isNum = true))

/-- The shape a frame has after one cleaning pass: every column cleaned,
names duplicate-free, a nonempty target column free of the sentinel, at
least one numeric column, and no empty numeric column. -/
def cleanedFrame (U : DF) : Prop :=
  (∀ u ∈ U.cols, cleanedCol u) ∧
  (U.cols.map (fun c => c.name)).Nodup ∧
  (∃ u ∈ U.cols, u.name = "CHURN" ∧ u.values ≠ [] ∧
    (u.dtype = .object → Cell.str "Unknown" ∉ u.values)) ∧
  (∃ u ∈ U.cols, isNumDtype u.dtype = true) ∧
  (∀ u ∈ U.cols, isNumDtype u.dtype = true → u.values ≠ [])

/-! ## Theorems -/

theorem standardizeDtype_eq_claimTypeMap (d : Dtype) :
    standardizeDtype d = claimTypeMap d := by
  cases d <;> rfl

/-- C1: `SchemaValidator.validate(candidate, template)` returns true iff the
candidate's column-name sequence equals the template's in content and order,
and the per-column sequences of mapped type classes (object/category to
Categorical, int64/float64 to Numerical, other dtypes kept literally) are
equal.  The embedding is a pure function, so the candidate is not mutated. -/
theorem validate_iff_names_and_classes (u t : DF) :
    validate_data_structure u t = true ↔
      (u.colNames = t.colNames ∧
        u.cols.map (fun c => claimTypeMap c.dtype) =
          t.cols.map (fun c => claimTypeMap c.dtype)) := by
  unfold validate_data_structure
  have hu : standardize_dtypes u = u.cols.map (fun c => claimTypeMap c.dtype) := by
    unfold standardize_dtypes
    simp [standardizeDtype_eq_claimTypeMap]
  have ht : standardize_dtypes t = t.cols.map (fun c => claimTypeMap c.dtype) := by
    unfold standardize_dtypes
    simp [standardizeDtype_eq_claimTypeMap]
  rw [hu, ht]
  by_cases h1 : u.colNames = t.colNames <;>
    by_cases h2 : u.cols.map (fun c => claimTypeMap c.dtype) =
      t.cols.map (fun c => claimTypeMap c.dtype) <;>
    simp [h1, h2]


/-! ### C3 — column-name normalization -/

/-- C3 counterexample: on the name "aB" the code produces "Ab"
(`str.capitalize()` lower-cases the tail), while the claim — first character
capitalized, all other characters unchanged — demands "AB". -/
theorem capName_tail_counterexample :
    capName "aB" = "Ab" ∧ claimCapName "aB" = "AB" ∧ capName "aB" ≠ claimCapName "aB" :=
  ⟨by decide, by decide, by decide⟩

/-- C3 (amended): a name starting with a lowercase letter has its first
character upper-cased and every remaining character lower-cased; a name not
starting with a lowercase letter is unchanged. -/
theorem capName_spec (s : String) (c : Char) (cs : List Char) :
    (s.data = c :: cs → pyIsLower c = true →
      (capName s).data = pyToUpper c :: cs.map pyToLower) ∧
    (frontIsLower s = false → capName s = s) := by
  constructor
  · intro hdata hlow
    obtain ⟨data⟩ := s
    simp only [String.data] at hdata
    subst hdata
    simp [capName, frontIsLower, pyCapitalize, hlow]
  · intro h
    simp [capName, h]

theorem capName_spec_witness :
    ((capName "aBC").data = pyToUpper 'a' :: ['B', 'C'].map pyToLower ∧
      capName "XY" = "XY") :=
  ⟨(capName_spec "aBC" 'a' ['B', 'C']).1 (by decide) (by decide),
   (capName_spec "XY" 'X' []).2 (by decide)⟩

/-! ### C4 — Summarizer on a zero-row table -/

/-- C4: at the failing input — a zero-row frame with a categorical column —
the categorical summary of lines 392-395 (and its filtered twin, 484-487)
raises `IndexError` from `.mode().iloc[0]` instead of returning empty
markers; the numeric summary of the same frame is well defined, with
count 0 and NaN (here `none`) statistics. -/
theorem summarizer_zero_rows_raises :
    categoricalSummary ⟨none, [⟨"REGION", Dtype.object, []⟩, ⟨"MONTANT", Dtype.float64, []⟩]⟩ =
      .error "IndexError: single positional indexer is out-of-bounds" ∧
    numericSummary ⟨none, [⟨"REGION", Dtype.object, []⟩, ⟨"MONTANT", Dtype.float64, []⟩]⟩ =
      [⟨"MONTANT", 0, none, none, none⟩] :=
  ⟨by decide, by decide⟩

/-! ### C9 — validation failures of the saver -/

/-- C9 counterexample: an empty upload is rejected with the store unchanged,
but its message ("Please upload a valid file.") does not point the caller at
the column descriptions. -/
theorem save_empty_message_counterexample :
    save_uploaded_file_as_sqlite ⟨none, [⟨"REGION", Dtype.object, []⟩]⟩ "u"
        ⟨none, [⟨"REGION", Dtype.object, [Cell.str "DAKAR"]⟩]⟩ ⟨[]⟩ =
      .ok (.failed saveMsgEmpty, ⟨[]⟩) ∧
    strContains saveMsgEmpty "column description" = false :=
  ⟨by decide, by decide⟩

/-- C9 (amended): an empty table or a table failing the schema validator is
rejected with no stored record and the store unchanged; in the schema-
mismatch case the message points the caller at the column descriptions,
while the empty-table case asks for a valid file without referencing them. -/
theorem save_rejects_invalid_without_write (df template : DF) (username : String)
    (store store2 : Store) (res : SaveResult)
    (h : save_uploaded_file_as_sqlite df username template store = .ok (res, store2))
    (hbad : df.isEmptyFrame = true ∨ validate_data_structure df template = false) :
    store2 = store ∧
      (df.isEmptyFrame = true → res = .failed saveMsgEmpty) ∧
      (df.isEmptyFrame = false →
        res = .failed saveMsgSchema ∧
          strContains saveMsgSchema "column descriptions" = true) := by
  unfold save_uploaded_file_as_sqlite at h
  cases hn : nextTableNumber (store.tables.map (fun p => p.1)) username with
  | error e => rw [hn] at h; exact absurd h (by simp)
  | ok n =>
    rw [hn] at h
    by_cases he : df.isEmptyFrame = true
    · simp only [he, if_true] at h
      refine ⟨?_, fun _ => ?_, fun hf => absurd he (by simp [hf])⟩
      · exact (by injection h with h1; injection h1 with ha hb; exact hb.symm)
      · injection h with h1; injection h1 with ha hb; exact ha.symm
    · have he2 : df.isEmptyFrame = false := by
        cases hx : df.isEmptyFrame
        · rfl
        · exact absurd hx he
      have hv : validate_data_structure df template = false := by
        rcases hbad with h1 | h1
        · exact absurd h1 he
        · exact h1
      simp only [he2, Bool.false_eq_true, if_false, hv, not_false_eq_true, if_true] at h
      refine ⟨?_, fun hf => absurd hf he, fun _ => ⟨?_, by decide⟩⟩
      · injection h with h1; injection h1 with ha hb; exact hb.symm
      · injection h with h1; injection h1 with ha hb; exact ha.symm

theorem save_rejects_invalid_witness :
    ((⟨none, [⟨"REGION", Dtype.object, []⟩]⟩ : DF).isEmptyFrame = true ∨
      validate_data_structure ⟨none, [⟨"REGION", Dtype.object, []⟩]⟩
        ⟨none, [⟨"REGION", Dtype.object, [Cell.str "DAKAR"]⟩]⟩ = false) ∧
    (⟨[("u_table1", ⟨none, []⟩)]⟩ : Store) = ⟨[("u_table1", ⟨none, []⟩)]⟩ := by
  have h := save_rejects_invalid_without_write
    ⟨none, [⟨"REGION", Dtype.object, []⟩]⟩
    ⟨none, [⟨"REGION", Dtype.object, [Cell.str "DAKAR"]⟩]⟩ "u"
    ⟨[("u_table1", ⟨none, []⟩)]⟩ ⟨[("u_table1", ⟨none, []⟩)]⟩ (.failed saveMsgEmpty)
    (by decide) (Or.inl (by decide))
  exact ⟨Or.inl (by decide), rfl⟩

/-! ### C8 — table-id assignment -/

theorem foldl_max_init_le (l : List Int) (n : Int) : n ≤ l.foldl max n := by
  induction l generalizing n with
  | nil => exact le_refl n
  | cons a as ih => exact le_trans (le_max_left n a) (ih (max n a))

theorem foldl_max_le_of_mem (l : List Int) (n : Int) :
    ∀ x ∈ l, x ≤ l.foldl max n := by
  induction l generalizing n with
  | nil => intro x hx; cases hx
  | cons a as ih =>
    intro x hx
    rcases List.mem_cons.mp hx with rfl | hx
    · exact le_trans (le_max_right n x) (foldl_max_init_le as (max n x))
    · exact ih (max n a) x hx

theorem foldl_max_attained (l : List Int) (n : Int) :
    l.foldl max n = n ∨ l.foldl max n ∈ l := by
  induction l generalizing n with
  | nil => exact Or.inl rfl
  | cons a as ih =>
    rcases ih (max n a) with h | h
    · rw [List.foldl_cons, h]
      rcases max_choice n a with h2 | h2
      · exact Or.inl h2
      · exact Or.inr (by rw [h2]; exact List.mem_cons_self a as)
    · exact Or.inr (List.mem_cons_of_mem a h)

theorem mapOptionAll_forward {A B : Type} {f : A → Option B} {l : List A} {bs : List B}
    (h : mapOptionAll f l = some bs) : ∀ a ∈ l, ∃ b ∈ bs, f a = some b := by
  induction l generalizing bs with
  | nil => intro a ha; cases ha
  | cons x xs ih =>
    intro a ha
    unfold mapOptionAll at h
    cases hx : f x with
    | none => rw [hx] at h; exact absurd h (by simp)
    | some b =>
      rw [hx] at h
      cases hxs : mapOptionAll f xs with
      | none => rw [hxs] at h; exact absurd h (by simp)
      | some cs =>
        rw [hxs] at h
        injection h with h
        subst h
        rcases List.mem_cons.mp ha with rfl | ha
        · exact ⟨b, List.mem_cons_self b cs, hx⟩
        · obtain ⟨b2, hb2, hf2⟩ := ih hxs a ha
          exact ⟨b2, List.mem_cons_of_mem b hb2, hf2⟩

theorem mapOptionAll_backward {A B : Type} {f : A → Option B} {l : List A} {bs : List B}
    (h : mapOptionAll f l = some bs) : ∀ b ∈ bs, ∃ a ∈ l, f a = some b := by
  induction l generalizing bs with
  | nil =>
    intro b hb
    unfold mapOptionAll at h
    injection h with h
    subst h
    cases hb
  | cons x xs ih =>
    intro b hb
    unfold mapOptionAll at h
    cases hx : f x with
    | none => rw [hx] at h; exact absurd h (by simp)
    | some c =>
      rw [hx] at h
      cases hxs : mapOptionAll f xs with
      | none => rw [hxs] at h; exact absurd h (by simp)
      | some cs =>
        rw [hxs] at h
        injection h with h
        subst h
        rcases List.mem_cons.mp hb with rfl | hb
        · exact ⟨x, List.mem_cons_self x xs, hx⟩
        · obtain ⟨a, ha, hf⟩ := ih hxs b hb
          exact ⟨a, List.mem_cons_of_mem x ha, hf⟩

/-- `zfill` to a string's own length pads nothing. -/
theorem zfill_self (s : String) : zfill s s.length = s := by
  unfold zfill
  rw [if_pos (le_refl s.length)]

/-- C8: the saver's next table id is one plus the maximum numeric suffix of
the existing names matching `{username}_table*` (1 when none match), and the
stored name carries that id in its natural decimal form, with no extra
padding (`zfill` to the number's own width). -/
theorem tableStore_next_id (existing : List String) (username : String) (n : Int)
    (h : nextTableNumber existing username = .ok n) :
    tableNameFor username n = username ++ "_table" ++ toString n ∧
    (existing.filter (fun t => strStartsWith t (username ++ "_table")) = [] → n = 1) ∧
    (∀ t ∈ existing.filter (fun t => strStartsWith t (username ++ "_table")),
      ∀ k, tableSuffixNum username t = some k → k + 1 ≤ n) ∧
    (existing.filter (fun t => strStartsWith t (username ++ "_table")) ≠ [] →
      ∃ t ∈ existing.filter (fun t => strStartsWith t (username ++ "_table")),
        tableSuffixNum username t = some (n - 1)) := by
  refine ⟨by unfold tableNameFor; rw [zfill_self], ?_⟩
  unfold nextTableNumber at h
  by_cases hut : existing.filter (fun t => strStartsWith t (username ++ "_table")) = []
  · rw [if_pos hut] at h
    injection h with h
    subst h
    exact ⟨fun _ => rfl, fun t ht => absurd (hut ▸ ht) (List.not_mem_nil t),
      fun hne => absurd hut hne⟩
  · rw [if_neg hut] at h
    cases hm : mapOptionAll (tableSuffixNum username)
        (existing.filter (fun t => strStartsWith t (username ++ "_table"))) with
    | none => rw [hm] at h; exact absurd h (by simp)
    | some ns =>
      rw [hm] at h
      cases ns with
      | nil =>
        obtain ⟨t, ht⟩ := List.exists_mem_of_ne_nil _ hut
        obtain ⟨b, hb, _⟩ := mapOptionAll_forward hm t ht
        cases hb
      | cons m ms =>
        injection h with h
        subst h
        refine ⟨fun he => absurd he hut, ?_, ?_⟩
        · intro t ht k hk
          obtain ⟨b, hb, hfb⟩ := mapOptionAll_forward hm t ht
          rw [hk] at hfb
          injection hfb with hbk
          have hle : k ≤ ms.foldl max m := by
            rw [hbk]
            rcases List.mem_cons.mp hb with h3 | h3
            · rw [h3]; exact foldl_max_init_le ms m
            · exact foldl_max_le_of_mem ms m b h3
          omega
        · intro _
          have hmem : ms.foldl max m ∈ m :: ms := by
            rcases foldl_max_attained ms m with h2 | h2
            · rw [h2]; exact List.mem_cons_self m ms
            · exact List.mem_cons_of_mem m h2
          obtain ⟨t, ht, hft⟩ := mapOptionAll_backward hm (ms.foldl max m) hmem
          refine ⟨t, ht, ?_⟩
          rw [hft]
          congr 1
          omega

theorem tableStore_next_id_witness :
    tableNameFor "u" 6 = "u" ++ "_table" ++ toString (6 : Int) ∧
    tableNameFor "u" 6 = "u_table6" ∧
    nextTableNumber ["u_table1", "u_table2", "u_table3", "u_table4", "u_table5"] "u" =
      .ok 6 := by
  have h := tableStore_next_id
    ["u_table1", "u_table2", "u_table3", "u_table4", "u_table5"] "u" 6 (by decide)
  exact ⟨h.1, by decide, by decide⟩

/-! ### C7 — filter conjunction commutativity -/

theorem seqFilter_eq_filter_all (ps : List (Nat → Bool)) (l : List Nat) :
    seqFilter ps l = l.filter (fun i => ps.all (fun p => p i)) := by
  induction ps generalizing l with
  | nil => simp [seqFilter]
  | cons p ps ih =>
    have h1 : seqFilter (p :: ps) l = seqFilter ps (l.filter p) := rfl
    rw [h1, ih, List.filter_filter]
    apply List.filter_congr
    intro i _
    simp [List.all_cons, Bool.and_comm]

theorem all_apply_perm {ps qs : List (Nat → Bool)} (h : ps.Perm qs) (i : Nat) :
    ps.all (fun p => p i) = qs.all (fun p => p i) := by
  induction h with
  | nil => rfl
  | cons x _ ih => simp only [List.all_cons, ih]
  | swap x y l => simp only [List.all_cons]; rw [Bool.and_left_comm]
  | trans _ _ ih1 ih2 => rw [ih1, ih2]

theorem codeFilteredRows_eq_seq (df : DF) (fs : FilterSpec) :
    codeFilteredRows df fs = seqFilter (clausePreds df fs) (List.range df.nrows) := by
  unfold codeFilteredRows clausePreds seqFilter
  cases hv : fs.selVal with
  | none =>
    cases hi : fs.selId with
    | none => simp [List.foldl_map]
    | some idv => simp [List.foldl_map]
  | some v =>
    cases hi : fs.selId with
    | none => simp [List.foldl_map]
    | some idv =>
      simp only [List.cons_append, List.nil_append, List.foldl_cons, List.foldl_map]
      have h2 : ((List.range df.nrows).filter (catClausePred df fs.selCol v)).filter
          (idClausePred df idv) =
          (List.range df.nrows).filter
            (fun i => catClausePred df fs.selCol v i && idClausePred df idv i) := by
        rw [List.filter_filter]
        apply List.filter_congr
        intro i _
        rw [Bool.and_comm]
      rw [h2]

/-- C7: for every frame and filter-widget state, the conjunction of the
present clauses (at most one categorical equality, at most one identifier
equality, one range per numeric column; an empty selection contributes no
clause) can be applied in any order: every permutation of the clause list
produces exactly the row set the source's branch-then-loop order produces,
namely the rows satisfying all present clauses. -/
theorem filter_any_order (df : DF) (fs : FilterSpec) (ps : List (Nat → Bool))
    (h : (clausePreds df fs).Perm ps) :
    seqFilter ps (List.range df.nrows) = codeFilteredRows df fs ∧
    codeFilteredRows df fs =
      (List.range df.nrows).filter (fun i => (clausePreds df fs).all (fun p => p i)) := by
  have h2 := codeFilteredRows_eq_seq df fs
  constructor
  · rw [h2, seqFilter_eq_filter_all, seqFilter_eq_filter_all]
    apply List.filter_congr
    intro i _
    exact (all_apply_perm h i).symm
  · rw [h2, seqFilter_eq_filter_all]

theorem filter_any_order_witness :
    seqFilter
        [rangeClausePred demoFilterDF ("MONTANT", ⟨0, 1⟩, ⟨100, 1⟩),
         catClausePred demoFilterDF "REGION" (Cell.str "DAKAR")]
        (List.range demoFilterDF.nrows) =
      codeFilteredRows demoFilterDF demoFilterSpec ∧
    codeFilteredRows demoFilterDF demoFilterSpec = [0] := by
  have h := filter_any_order demoFilterDF demoFilterSpec
    [rangeClausePred demoFilterDF ("MONTANT", ⟨0, 1⟩, ⟨100, 1⟩),
     catClausePred demoFilterDF "REGION" (Cell.str "DAKAR")]
    (List.Perm.swap (rangeClausePred demoFilterDF ("MONTANT", ⟨0, 1⟩, ⟨100, 1⟩))
      (catClausePred demoFilterDF "REGION" (Cell.str "DAKAR")) [])
  exact ⟨h.1, by decide⟩

/-! ### C5 — target revert and mode imputation -/

theorem pick_fold_mem (l : List Cell) (vs : List Cell) (acc : Cell)
    (hacc : acc ∈ l) (hvs : ∀ w ∈ vs, w ∈ l) :
    vs.foldl (fun acc w =>
      if vcount l acc < vcount l w then w
      else if vcount l w = vcount l acc ∧ cellLe w acc then w else acc) acc ∈ l := by
  induction vs generalizing acc with
  | nil => exact hacc
  | cons w ws ih =>
    rw [List.foldl_cons]
    have hw : w ∈ l := hvs w (List.mem_cons_self w ws)
    have hws : ∀ x ∈ ws, x ∈ l := fun x hx => hvs x (List.mem_cons_of_mem w hx)
    by_cases h1 : vcount l acc < vcount l w
    · rw [if_pos h1]; exact ih w hw hws
    · rw [if_neg h1]
      by_cases h2 : vcount l w = vcount l acc ∧ cellLe w acc
      · rw [if_pos h2]; exact ih w hw hws
      · rw [if_neg h2]; exact ih acc hacc hws

theorem pick_fold_count (l : List Cell) (vs : List Cell) (acc : Cell) :
    vcount l acc ≤ vcount l (vs.foldl (fun acc w =>
      if vcount l acc < vcount l w then w
      else if vcount l w = vcount l acc ∧ cellLe w acc then w else acc) acc) ∧
    ∀ w ∈ vs, vcount l w ≤ vcount l (vs.foldl (fun acc w =>
      if vcount l acc < vcount l w then w
      else if vcount l w = vcount l acc ∧ cellLe w acc then w else acc) acc) := by
  induction vs generalizing acc with
  | nil => exact ⟨le_refl _, fun w hw => absurd hw (List.not_mem_nil w)⟩
  | cons w ws ih =>
    rw [List.foldl_cons]
    by_cases h1 : vcount l acc < vcount l w
    · rw [if_pos h1]
      obtain ⟨ha, hb⟩ := ih w
      refine ⟨le_trans (le_of_lt h1) ha, fun x hx => ?_⟩
      rcases List.mem_cons.mp hx with h2 | h2
      · rw [h2]; exact ha
      · exact hb x h2
    · rw [if_neg h1]
      by_cases h2 : vcount l w = vcount l acc ∧ cellLe w acc
      · rw [if_pos h2]
        obtain ⟨ha, hb⟩ := ih w
        refine ⟨le_trans (le_of_eq h2.1.symm) ha, fun x hx => ?_⟩
        rcases List.mem_cons.mp hx with h3 | h3
        · rw [h3]; exact ha
        · exact hb x h3
      · rw [if_neg h2]
        obtain ⟨ha, hb⟩ := ih acc
        refine ⟨ha, fun x hx => ?_⟩
        rcases List.mem_cons.mp hx with h3 | h3
        · rw [h3]; exact le_trans (le_of_not_lt h1) ha
        · exact hb x h3

/-- The imputation value is one of the observed values. -/
theorem pickMode_mem (l : List Cell) (h : l ≠ []) : pickMode l ∈ l := by
  cases l with
  | nil => exact absurd rfl h
  | cons v vs =>
    exact pick_fold_mem (v :: vs) vs v (List.mem_cons_self v vs)
      (fun w hw => List.mem_cons_of_mem v hw)

/-- The imputation value is most frequent among the observed values. -/
theorem pickMode_count_ge (l : List Cell) : ∀ w ∈ l, vcount l w ≤ vcount l (pickMode l) := by
  intro w hw
  cases l with
  | nil => cases hw
  | cons v vs =>
    obtain ⟨ha, hb⟩ := pick_fold_count (v :: vs) vs v
    rcases List.mem_cons.mp hw with h2 | h2
    · rw [h2]; exact ha
    · exact hb w h2

/-- C5: step 4 of the cleaner (lines 344-349) on the target column: every
occurrence of the sentinel 'Unknown' is reverted to missing, then every
missing entry is imputed with a value of maximal frequency among the
non-missing reverted entries; all other columns are untouched by the step. -/
theorem churn_revert_and_mode_impute (df df2 : DF) (c : Col)
    (h : churnStep df = .ok df2)
    (hc : df.cols.find? (fun d => d.name == "CHURN") = some c) :
    churnObserved c ≠ [] ∧
    pickMode (churnObserved c) ∈ churnObserved c ∧
    (∀ w ∈ churnObserved c,
      vcount (churnObserved c) w ≤ vcount (churnObserved c) (pickMode (churnObserved c))) ∧
    df2.index = df.index ∧
    df2.cols = df.cols.map (fun d => if d.name = "CHURN" then churnTransform d else d) ∧
    ∀ d, (churnTransform d).values =
      (d.values.map revertUnknown).map (imputeNa (pickMode (churnObserved d))) := by
  have hstep : churnStep df =
      if churnObserved c = [] then .error (.imputerError "CHURN is all missing")
      else .ok { df with
        cols := List.map (fun d => if d.name = "CHURN" then churnTransform d else d) df.cols } := by
    unfold churnStep
    rw [hc]
  rw [hstep] at h
  by_cases hobs : churnObserved c = []
  · rw [if_pos hobs] at h; exact absurd h (by simp)
  · rw [if_neg hobs] at h
    injection h with h
    subst h
    exact ⟨hobs, pickMode_mem _ hobs, pickMode_count_ge _, rfl, rfl,
      fun d => rfl⟩

theorem churn_mode_witness :
    churnStep ⟨none, [⟨"CHURN", Dtype.object, [Cell.str "Yes", Cell.na, Cell.str "Yes"]⟩]⟩ =
      .ok ⟨none, [⟨"CHURN", Dtype.object, [Cell.str "Yes", Cell.str "Yes", Cell.str "Yes"]⟩]⟩ ∧
    pickMode (churnObserved ⟨"CHURN", Dtype.object, [Cell.str "Yes", Cell.na, Cell.str "Yes"]⟩) ∈
      churnObserved ⟨"CHURN", Dtype.object, [Cell.str "Yes", Cell.na, Cell.str "Yes"]⟩ := by
  have h := churn_revert_and_mode_impute
    ⟨none, [⟨"CHURN", Dtype.object, [Cell.str "Yes", Cell.na, Cell.str "Yes"]⟩]⟩
    ⟨none, [⟨"CHURN", Dtype.object, [Cell.str "Yes", Cell.str "Yes", Cell.str "Yes"]⟩]⟩
    ⟨"CHURN", Dtype.object, [Cell.str "Yes", Cell.na, Cell.str "Yes"]⟩
    (by decide) (by decide)
  exact ⟨by decide, h.2.1⟩

/-! ### C6 — median imputation and integer cast-back -/

/-- C6: steps 6-7 of the cleaner (lines 355-364): every numeric column has
its missing entries imputed with the median of its non-missing entries
(which exist, else the step fails), float64 columns stay float64, and every
column that was int64 before the imputation is cast back to int64; non-
numeric columns are untouched. -/
theorem impute_median_and_cast (df U : DF) (h : imputeStep df = .ok U) :
    U.index = df.index ∧ U.cols.length = df.cols.length ∧
    ∀ (k : Nat) (c : Col), df.cols[k]? = some c →
      (isNumDtype c.dtype = true → colObservedNums c ≠ []) ∧
      (isNumDtype c.dtype = false → U.cols[k]? = some c) ∧
      (c.dtype = .float64 →
        U.cols[k]? = some (⟨c.name, .float64,
          c.values.map (imputeNa (.num (medianOf (colObservedNums c))))⟩ : Col)) ∧
      (c.dtype = .int64 →
        U.cols[k]? = some (⟨c.name, .int64,
          (c.values.map (imputeNa (.num (medianOf (colObservedNums c))))).map truncCell⟩ : Col)) := by
  simp only [imputeStep] at h
  split at h
  next h1 => exact absurd h (by simp)
  next h1 =>
    split at h
    next h2 => exact absurd h (by simp)
    next h2 =>
      split at h
      next h3 => exact absurd h (by simp)
      next h3 =>
        injection h with h
        subst h
        refine ⟨rfl, by simp, ?_⟩
        intro k c hk
        have hcmem : c ∈ df.cols := by
          obtain ⟨hlt, hgl⟩ := List.getElem?_eq_some_iff.mp hk
          rw [← hgl]
          exact List.getElem_mem hlt
        have hmap : (List.map imputeCol df.cols)[k]? = some (imputeCol c) := by
          rw [List.getElem?_map, hk, Option.map_some']
        refine ⟨?_, ?_, ?_, ?_⟩
        · intro hnum hobs
          apply h3
          rw [List.any_eq_true]
          exact ⟨c, List.mem_filter.mpr ⟨hcmem, hnum⟩, by simp [hobs]⟩
        · intro hnn
          rw [show ({ index := df.index, cols := List.map imputeCol df.cols } : DF).cols
              = List.map imputeCol df.cols from rfl, hmap]
          congr 1
          simp [imputeCol, hnn]
        · intro hf
          rw [show ({ index := df.index, cols := List.map imputeCol df.cols } : DF).cols
              = List.map imputeCol df.cols from rfl, hmap]
          congr 1
          simp [imputeCol, isNumDtype, hf]
        · intro hi
          rw [show ({ index := df.index, cols := List.map imputeCol df.cols } : DF).cols
              = List.map imputeCol df.cols from rfl, hmap]
          congr 1
          simp [imputeCol, isNumDtype, hi]

theorem impute_median_witness :
    imputeStep ⟨none, [⟨"MONTANT", Dtype.float64,
        [Cell.num ⟨10, 1⟩, Cell.na, Cell.num ⟨30, 1⟩]⟩]⟩ =
      .ok ⟨none, [⟨"MONTANT", Dtype.float64,
        [Cell.num ⟨10, 1⟩, Cell.num ⟨40, 2⟩, Cell.num ⟨30, 1⟩]⟩]⟩ ∧
    Fnum.beqv ⟨40, 2⟩ ⟨20, 1⟩ = true ∧
    (⟨"MONTANT", Dtype.float64, [Cell.num ⟨10, 1⟩, Cell.na, Cell.num ⟨30, 1⟩]⟩ : Col).dtype =
      Dtype.float64 := by
  have h := impute_median_and_cast
    ⟨none, [⟨"MONTANT", Dtype.float64, [Cell.num ⟨10, 1⟩, Cell.na, Cell.num ⟨30, 1⟩]⟩]⟩
    ⟨none, [⟨"MONTANT", Dtype.float64,
      [Cell.num ⟨10, 1⟩, Cell.num ⟨40, 2⟩, Cell.num ⟨30, 1⟩]⟩]⟩ (by decide)
  exact ⟨by decide, by decide, rfl⟩

/-! ### C10 — the target column is mandatory -/

/-- C10: on a well-formed frame none of whose normalized column names is
`CHURN`, the cleaner fails with the key-lookup error for `CHURN` (the
`df['CHURN']` access of line 345): the target column is mandatory. -/
theorem clean_requires_churn (df : DF) (_hwf : df.WF)
    (h : ∀ c ∈ df.cols, capName c.name ≠ "CHURN") :
    clean df = .error (.keyError "CHURN") := by
  have hfind : (fillUnknownStep (capStep (setIndexStep df))).cols.find?
      (fun c => c.name == "CHURN") = none := by
    rw [List.find?_eq_none]
    intro c hc
    simp only [fillUnknownStep, capStep, List.mem_map] at hc
    obtain ⟨c1, hc1, hc1e⟩ := hc
    obtain ⟨c0, hc0, hc0e⟩ := hc1
    have hname : c.name = capName c0.name := by
      subst hc1e hc0e
      by_cases hcond : ({ c0 with name := capName c0.name } : Col).name ≠ "CHURN" ∧
          (({ c0 with name := capName c0.name } : Col).dtype = .object ∨
            ({ c0 with name := capName c0.name } : Col).dtype = .category)
      · rw [if_pos hcond]
      · rw [if_neg hcond]
    have hc0mem : c0 ∈ df.cols := by
      unfold setIndexStep at hc0
      cases hfi : df.cols.find? (fun c => c.name == "user_id") with
      | some cid => rw [hfi] at hc0; exact List.mem_of_mem_filter hc0
      | none => rw [hfi] at hc0; exact hc0
    rw [hname]
    simpa using h c0 hc0mem
  have hchurn : churnStep (fillUnknownStep (capStep (setIndexStep df))) =
      .error (.keyError "CHURN") := by
    unfold churnStep
    rw [hfind]
  unfold clean
  rw [hchurn]
  rfl

theorem clean_requires_churn_witness :
    clean ⟨none, [⟨"REGION", Dtype.object, [Cell.str "DAKAR"]⟩]⟩ =
      .error (.keyError "CHURN") :=
  clean_requires_churn ⟨none, [⟨"REGION", Dtype.object, [Cell.str "DAKAR"]⟩]⟩
    (by decide) (by decide)

/-! ### C2 — cleaning idempotence: supporting lemmas -/

theorem char_ofNat_toNat {n : Nat} (hv : n.isValidChar) : (Char.ofNat n).toNat = n := by
  simp [Char.ofNat, hv, Char.ofNatAux, Char.toNat, UInt32.toNat, BitVec.toNat_ofNatLt]

theorem pyToUpper_not_lower (c : Char) (h : pyIsLower c = true) :
    pyIsLower (pyToUpper c) = false := by
  simp [pyIsLower] at h
  obtain ⟨h1, h2⟩ := h
  unfold pyToUpper
  rw [if_pos (And.intro h1 h2)]
  have hv : (c.toNat - 32).isValidChar := Or.inl (by omega)
  simp [pyIsLower, char_ofNat_toNat hv]
  omega

theorem pyToUpper_ne_u (c : Char) (h : pyIsLower c = true) : pyToUpper c ≠ 'u' := by
  simp [pyIsLower] at h
  obtain ⟨h1, h2⟩ := h
  unfold pyToUpper
  rw [if_pos (And.intro h1 h2)]
  intro he
  have hv : (c.toNat - 32).isValidChar := Or.inl (by omega)
  have ht := char_ofNat_toNat hv
  rw [he] at ht
  have hu : ('u').toNat = 117 := by decide
  omega

theorem pyCapitalize_data (s : String) (c : Char) (cs : List Char) (hd : s.data = c :: cs) :
    pyCapitalize s = String.mk (pyToUpper c :: cs.map pyToLower) := by
  unfold pyCapitalize
  rw [hd]

theorem frontIsLower_mk (c : Char) (cs : List Char) :
    frontIsLower (String.mk (c :: cs)) = pyIsLower c := rfl

theorem capName_idem (s : String) : capName (capName s) = capName s := by
  cases h : frontIsLower s with
  | false =>
    have h1 : capName s = s := by unfold capName; rw [h]; rfl
    rw [h1, h1]
  | true =>
    cases hd : s.data with
    | nil => unfold frontIsLower at h; rw [hd] at h; cases h
    | cons c cs =>
      have hlow : pyIsLower c = true := by
        unfold frontIsLower at h; rw [hd] at h; exact h
      have h1 : capName s = String.mk (pyToUpper c :: cs.map pyToLower) := by
        unfold capName
        rw [h, pyCapitalize_data s c cs hd]
        rfl
      rw [h1]
      unfold capName
      rw [frontIsLower_mk, pyToUpper_not_lower c hlow]
      rfl

theorem capName_ne_userid (s : String) : capName s ≠ "user_id" := by
  cases h : frontIsLower s with
  | false =>
    have h1 : capName s = s := by unfold capName; rw [h]; rfl
    rw [h1]
    intro he
    rw [he] at h
    exact absurd h (by decide)
  | true =>
    cases hd : s.data with
    | nil => unfold frontIsLower at h; rw [hd] at h; cases h
    | cons c cs =>
      have hlow : pyIsLower c = true := by
        unfold frontIsLower at h; rw [hd] at h; exact h
      have h1 : capName s = String.mk (pyToUpper c :: cs.map pyToLower) := by
        unfold capName
        rw [h, pyCapitalize_data s c cs hd]
        rfl
      rw [h1]
      intro he
      have hdata := congrArg String.data he
      simp only [String.data] at hdata
      injection hdata with hc _
      exact pyToUpper_ne_u c hlow hc

theorem list_map_fix {α : Type} {l : List α} {f : α → α} (h : ∀ x ∈ l, f x = x) :
    l.map f = l := by
  induction l with
  | nil => rfl
  | cons a as ih =>
    rw [List.map_cons, h a (List.mem_cons_self a as),
      ih (fun x hx => h x (List.mem_cons_of_mem a hx))]

theorem list_filter_fix {α : Type} {l : List α} {p : α → Bool} (h : ∀ x ∈ l, p x = true) :
    l.filter p = l := by
  induction l with
  | nil => rfl
  | cons a as ih =>
    rw [List.filter_cons, if_pos (h a (List.mem_cons_self a as)),
      ih (fun x hx => h x (List.mem_cons_of_mem a hx))]

theorem mapOptionAll_length {A B : Type} {f : A → Option B} {l : List A} {bs : List B}
    (h : mapOptionAll f l = some bs) : bs.length = l.length := by
  induction l generalizing bs with
  | nil =>
    unfold mapOptionAll at h
    injection h with h
    subst h
    rfl
  | cons x xs ih =>
    unfold mapOptionAll at h
    cases hx : f x with
    | none => rw [hx] at h; exact absurd h (by simp)
    | some b =>
      rw [hx] at h
      cases hxs : mapOptionAll f xs with
      | none => rw [hxs] at h; exact absurd h (by simp)
      | some cs =>
        rw [hxs] at h
        injection h with h
        subst h
        rw [List.length_cons, ih hxs, List.length_cons]

theorem parseDecCore_int {sign : Int} {body : List Char} {q : Fnum}
    (h : parseDecCore sign body = some (true, q)) : q.den = 1 := by
  unfold parseDecCore at h
  split at h
  · simp only [Option.some.injEq, Prod.mk.injEq] at h
    rw [← h.2]
  · split at h
    all_goals try split at h
    all_goals simp_all

theorem parseDec_int {s : String} {q : Fnum}
    (h : parseDec s = some (true, q)) : q.den = 1 := by
  unfold parseDec at h
  split at h <;> exact parseDecCore_int h

theorem fillCell_ne_na (v : Cell) : fillCell v ≠ .na := by
  unfold fillCell
  by_cases h : v = .na
  · rw [if_pos h]; simp
  · rw [if_neg h]; exact h

theorem fillCell_fix {v : Cell} (h : v ≠ .na) : fillCell v = v := by
  unfold fillCell
  rw [if_neg h]

theorem revertUnknown_ne_unknown (v : Cell) : revertUnknown v ≠ .str "Unknown" := by
  unfold revertUnknown
  by_cases h : v = .str "Unknown"
  · rw [if_pos h]; simp
  · rw [if_neg h]; exact h

theorem revertUnknown_fix {v : Cell} (h : v ≠ .str "Unknown") : revertUnknown v = v := by
  unfold revertUnknown
  rw [if_neg h]

theorem revertUnknown_num {v : Cell} (h : v.isNum = true) : revertUnknown v = v := by
  cases v with
  | str s => cases h
  | num q => rfl
  | na => rfl

theorem imputeNa_fix {m v : Cell} (h : v ≠ .na) : imputeNa m v = v := by
  unfold imputeNa
  rw [if_neg h]

theorem imputeNa_ne_na {m v : Cell} (hm : m ≠ .na) : imputeNa m v ≠ .na := by
  unfold imputeNa
  by_cases h : v = .na
  · rw [if_pos h]; exact hm
  · rw [if_neg h]; exact h

theorem imputeNa_isNum {m v : Cell} (hm : m.isNum = true)
    (hv : v.isNum = true ∨ v = .na) : (imputeNa m v).isNum = true := by
  unfold imputeNa
  by_cases h : v = .na
  · rw [if_pos h]; exact hm
  · rw [if_neg h]
    rcases hv with hv | hv
    · exact hv
    · exact absurd hv h

theorem truncCell_isInt {v : Cell} (h : v.isNum = true) :
    (truncCell v).isIntCell = true := by
  cases v with
  | str s => cases h
  | na => cases h
  | num q => rfl

theorem truncCell_fix {v : Cell} (h : v.isIntCell = true) : truncCell v = v := by
  cases v with
  | str s => cases h
  | na => cases h
  | num q =>
    obtain ⟨qn, qd⟩ := q
    have hd : qd = 1 := by
      simp [Cell.isIntCell] at h
      exact h
    subst hd
    simp only [truncCell, Fnum.trunc]
    rw [Nat.cast_one, Int.tdiv_one]

theorem isIntCell_isNum {v : Cell} (h : v.isIntCell = true) : v.isNum = true := by
  cases v with
  | str s => cases h
  | na => cases h
  | num q => rfl

/-- What one cell can become under `pd.to_numeric`: missing stays missing
(flagged non-integer), anything else parses to a number; integer-flagged
results are canonical integers. -/
theorem parseCellNum_cases {v : Cell} {b : Bool} {w : Cell}
    (h : parseCellNum v = some (b, w)) :
    (v = .na ∧ w = .na ∧ b = false) ∨ (w.isNum = true ∧ (b = true → w.isIntCell = true)) := by
  cases v with
  | na =>
    unfold parseCellNum at h
    simp only [Option.some.injEq, Prod.mk.injEq] at h
    exact Or.inl ⟨rfl, h.2.symm, h.1.symm⟩
  | num q =>
    unfold parseCellNum at h
    simp only [Option.some.injEq, Prod.mk.injEq] at h
    refine Or.inr ⟨by rw [← h.2]; rfl, fun hb => ?_⟩
    rw [← h.2]
    show (q.den == 1) = true
    rw [← h.1] at hb
    exact hb
  | str s =>
    rw [show parseCellNum (.str s) =
      (parseDec s).map (fun p => (p.1, Cell.num p.2)) from rfl] at h
    cases hp : parseDec s with
    | none => rw [hp] at h; exact absurd h (by simp)
    | some p =>
      rw [hp] at h
      simp only [Option.map_some', Option.some.injEq] at h
      obtain ⟨p1, p2⟩ := p
      simp only [Prod.mk.injEq] at h
      refine Or.inr ⟨by rw [← h.2]; rfl, fun hb => ?_⟩
      rw [← h.2]
      show (p2.den == 1) = true
      rw [← h.1] at hb
      subst hb
      have := parseDec_int hp
      simp [this]

theorem capF_name (c : Col) : (capF c).name = capName c.name := rfl

theorem capF_dtype (c : Col) : (capF c).dtype = c.dtype := rfl

theorem capF_values (c : Col) : (capF c).values = c.values := rfl

theorem fillIf_name (c : Col) : (fillIf c).name = c.name := by
  unfold fillIf; split <;> rfl

theorem fillIf_dtype (c : Col) : (fillIf c).dtype = c.dtype := by
  unfold fillIf; split <;> rfl

theorem churnTransform_name (c : Col) : (churnTransform c).name = c.name := rfl

theorem churnIf_name (c : Col) : (churnIf c).name = c.name := by
  unfold churnIf; split <;> rfl

theorem toNumericCol_name (c : Col) : (toNumericCol c).name = c.name := by
  unfold toNumericCol
  split
  · split <;> rfl
  · rfl

theorem imputeCol_name (c : Col) : (imputeCol c).name = c.name := by
  unfold imputeCol
  split
  · split <;> rfl
  · rfl

theorem colPipe_name (c : Col) : (colPipe c).name = capName c.name := by
  unfold colPipe
  rw [imputeCol_name, toNumericCol_name, churnIf_name, fillIf_name, capF_name]

theorem churnTransform_length (c : Col) :
    (churnTransform c).values.length = c.values.length := by
  simp [churnTransform, churnReverted]

theorem churnIf_length (c : Col) : (churnIf c).values.length = c.values.length := by
  unfold churnIf
  split
  · exact churnTransform_length c
  · rfl

theorem fillIf_length (c : Col) : (fillIf c).values.length = c.values.length := by
  unfold fillIf
  split
  · exact List.length_map c.values fillCell
  · rfl

theorem toNumericCol_length (c : Col) :
    (toNumericCol c).values.length = c.values.length := by
  unfold toNumericCol
  split
  · split
    next rs hrs => simp [mapOptionAll_length hrs]
    next => rfl
  · rfl

theorem imputeCol_length (c : Col) : (imputeCol c).values.length = c.values.length := by
  unfold imputeCol
  split
  · split <;> simp
  · rfl

theorem colPipe_length (c : Col) : (colPipe c).values.length = c.values.length := by
  unfold colPipe
  rw [imputeCol_length, toNumericCol_length, churnIf_length, fillIf_length, capF_values]

theorem toNumericCol_not_object {c : Col} (h : c.dtype ≠ .object) : toNumericCol c = c := by
  unfold toNumericCol
  rw [if_neg h]

theorem imputeCol_not_num {c : Col} (h : isNumDtype c.dtype = false) : imputeCol c = c := by
  unfold imputeCol
  rw [if_neg (by simp [h])]

theorem imputeCol_object {c : Col} (h : c.dtype = .object) : imputeCol c = c :=
  imputeCol_not_num (by simp [isNumDtype, h])

theorem imputeCol_int {c : Col} (h : c.dtype = .int64) :
    imputeCol c = ⟨c.name, .int64,
      (c.values.map (imputeNa (.num (medianOf (colObservedNums c))))).map truncCell⟩ := by
  obtain ⟨nm, dt, vals⟩ := c
  simp only [] at h
  subst h
  rfl

theorem imputeCol_float {c : Col} (h : c.dtype = .float64) :
    imputeCol c = ⟨c.name, .float64,
      c.values.map (imputeNa (.num (medianOf (colObservedNums c))))⟩ := by
  obtain ⟨nm, dt, vals⟩ := c
  simp only [] at h
  subst h
  rfl

theorem imputeCol_dtype (c : Col) :
    (imputeCol c).dtype = if c.dtype = .int64 then .int64
      else if c.dtype = .float64 then .float64 else c.dtype := by
  by_cases h1 : c.dtype = .int64
  · rw [imputeCol_int h1, if_pos h1]
  · by_cases h2 : c.dtype = .float64
    · rw [imputeCol_float h2, if_neg h1, if_pos h2]
    · rw [imputeCol_not_num (by simp [isNumDtype, h1, h2]), if_neg h1, if_neg h2]

theorem churnTransform_eq (c : Col) :
    churnTransform c = { c with
      dtype := if c.dtype = .object then .object else .float64,
      values := (churnReverted c).map (imputeNa (pickMode (churnObserved c))) } := rfl

theorem toNumericCol_object_out {c : Col} (h : (toNumericCol c).dtype = .object) :
    toNumericCol c = c ∧ c.dtype = .object := by
  by_cases hc : c.dtype = .object
  · refine ⟨?_, hc⟩
    unfold toNumericCol at h ⊢
    rw [if_pos hc] at h ⊢
    cases hm : mapOptionAll parseCellNum c.values with
    | none => rfl
    | some rs =>
      rw [hm] at h
      simp only [] at h
      by_cases hall : rs.all (fun r => r.1) = true
      · rw [if_pos hall] at h; cases h
      · rw [if_neg hall] at h; cases h
  · rw [toNumericCol_not_object hc] at h
    exact absurd h hc

theorem capStep_cols (df : DF) : (capStep df).cols = df.cols.map capF := rfl

theorem fillStep_cols (df : DF) : (fillUnknownStep df).cols = df.cols.map fillIf := rfl

theorem toNumericStep_cols (df : DF) : (toNumericStep df).cols = df.cols.map toNumericCol := rfl

theorem setIndexStep_sub (df : DF) : (setIndexStep df).cols.Sublist df.cols := by
  unfold setIndexStep
  cases df.cols.find? (fun c => c.name == "user_id") with
  | some c => exact List.filter_sublist df.cols
  | none => exact List.Sublist.refl df.cols

theorem churnStep_ok {df df2 : DF} (h : churnStep df = .ok df2) :
    ∃ ch, df.cols.find? (fun c => c.name == "CHURN") = some ch ∧
      churnObserved ch ≠ [] ∧ df2 = { df with cols := df.cols.map churnIf } := by
  cases hf : df.cols.find? (fun c => c.name == "CHURN") with
  | none =>
    have h2 : churnStep df = .error (.keyError "CHURN") := by
      unfold churnStep; rw [hf]
    rw [h2] at h
    exact absurd h (by simp)
  | some ch =>
    have hstep : churnStep df =
        if churnObserved ch = [] then .error (.imputerError "CHURN is all missing")
        else .ok { df with
          cols := List.map (fun d => if d.name = "CHURN" then churnTransform d else d) df.cols } := by
      unfold churnStep
      rw [hf]
    rw [hstep] at h
    by_cases hobs : churnObserved ch = []
    · rw [if_pos hobs] at h; exact absurd h (by simp)
    · rw [if_neg hobs] at h
      injection h with h
      refine ⟨ch, rfl, hobs, ?_⟩
      rw [← h]
      rfl

theorem imputeStep_ok {df U : DF} (h : imputeStep df = .ok U) :
    df.cols.filter (fun c => isNumDtype c.dtype) ≠ [] ∧
    (∀ c ∈ df.cols, isNumDtype c.dtype = true →
      c.values.length ≠ 0 ∧ colObservedNums c ≠ []) ∧
    U = { df with cols := df.cols.map imputeCol } := by
  simp only [imputeStep] at h
  split at h
  next h1 => exact absurd h (by simp)
  next h1 =>
    split at h
    next h2 => exact absurd h (by simp)
    next h2 =>
      split at h
      next h3 => exact absurd h (by simp)
      next h3 =>
        injection h with h
        refine ⟨h1, fun c hc hnum => ⟨?_, ?_⟩, h.symm⟩
        · intro hlen
          apply h2
          rw [List.any_eq_true]
          exact ⟨c, List.mem_filter.mpr ⟨hc, hnum⟩, by simp [hlen]⟩
        · intro hobs
          apply h3
          rw [List.any_eq_true]
          exact ⟨c, List.mem_filter.mpr ⟨hc, hnum⟩, by simp [hobs]⟩

theorem clean_ok {df U : DF} (h : clean df = .ok U) :
    ∃ df4, churnStep (fillUnknownStep (capStep (setIndexStep df))) = .ok df4 ∧
      imputeStep (toNumericStep df4) = .ok U := by
  unfold clean at h
  cases hc : churnStep (fillUnknownStep (capStep (setIndexStep df))) with
  | error e =>
    rw [hc] at h
    simp only [bind, Except.bind] at h
    exact absurd h (by simp)
  | ok df4 =>
    rw [hc] at h
    simp only [bind, Except.bind] at h
    exact ⟨df4, rfl, h⟩

theorem isNum_ne_na {v : Cell} (h : v.isNum = true) : v ≠ .na := by
  cases v with
  | str s => cases h
  | num q => simp
  | na => cases h

theorem observed_ne_nil {c : Col} (hne : c.values ≠ [])
    (hall : c.values.all Cell.isNum = true) : colObservedNums c ≠ [] := by
  cases hv : c.values with
  | nil => exact absurd hv hne
  | cons v vs =>
    have hvn : v.isNum = true := by
      rw [hv] at hall
      exact (List.all_cons .. ▸ hall |> Bool.and_elim_left)
    cases v with
    | str s => cases hvn
    | na => cases hvn
    | num q =>
      unfold colObservedNums
      rw [hv]
      simp [List.filterMap_cons]

/-- A cleaned frame whose target column is not integer-typed is a fixed
point of every cleaning step. -/
theorem cleanedFrame_fix (U : DF) (hU : cleanedFrame U)
    (hchurn : ∀ u ∈ U.cols, u.name = "CHURN" → u.dtype ≠ .int64) :
    clean U = .ok U := by
  obtain ⟨hcols, hnodup, ⟨tc, htc_mem, htc_name, htc_ne, htc_unk⟩,
    ⟨nc, hnc_mem, hnc_num⟩, hnums⟩ := hU
  have huniq : ∀ u ∈ U.cols, u.name = "CHURN" → u = tc := by
    intro u hu hn
    exact List.inj_on_of_nodup_map hnodup hu htc_mem (by rw [hn, htc_name])
  -- step 1 is a no-op
  have hset : setIndexStep U = U := by
    unfold setIndexStep
    have hfind : U.cols.find? (fun c => c.name == "user_id") = none := by
      rw [List.find?_eq_none]
      intro c hc
      simp [(hcols c hc).2.1]
    rw [hfind]
  -- step 2 is a no-op
  have hcap : capStep U = U := by
    show { U with cols := U.cols.map capF } = U
    rw [@list_map_fix Col U.cols capF (fun c hc => by
      unfold capF
      rw [(hcols c hc).1])]
  -- step 3 is a no-op
  have hfill : fillUnknownStep U = U := by
    show { U with cols := U.cols.map fillIf } = U
    rw [@list_map_fix Col U.cols fillIf (fun c hc => by
      unfold fillIf
      split
      next hcond =>
        rcases (hcols c hc).2.2 with ⟨ho, hna, _⟩ | ⟨hi, _⟩ | ⟨hf2, _⟩
        · rw [@list_map_fix Cell c.values fillCell (fun v hv =>
            fillCell_fix (fun hveq => hna (hveq ▸ hv)))]
        · rcases hcond.2 with h | h
          · rw [hi] at h; exact Dtype.noConfusion h
          · rw [hi] at h; exact Dtype.noConfusion h
        · rcases hcond.2 with h | h
          · rw [hf2] at h; exact Dtype.noConfusion h
          · rw [hf2] at h; exact Dtype.noConfusion h
      next => rfl)]
  -- the target column is a fixed point of the step-4 transform
  have htc_fix : churnTransform tc = tc ∧ churnObserved tc = tc.values := by
    rcases (hcols tc htc_mem).2.2 with ⟨ho, hna, _⟩ | ⟨hi, _⟩ | ⟨hff, hall⟩
    · have hunk := htc_unk ho
      have hrev : churnReverted tc = tc.values :=
        @list_map_fix Cell tc.values revertUnknown (fun v hv =>
          revertUnknown_fix (fun hveq => hunk (hveq ▸ hv)))
      have hobs : churnObserved tc = tc.values := by
        unfold churnObserved
        rw [hrev]
        exact @list_filter_fix Cell tc.values _ (fun v hv => by
          simp
          exact fun hveq => hna (hveq ▸ hv))
      refine ⟨?_, hobs⟩
      rw [churnTransform_eq, hrev, if_pos ho,
        @list_map_fix Cell tc.values _ (fun v hv =>
          imputeNa_fix (fun hveq => hna (hveq ▸ hv))), ← ho]
    · exact absurd hi (hchurn tc htc_mem htc_name)
    · have hnum : ∀ v ∈ tc.values, v.isNum = true := List.all_eq_true.mp hall
      have hrev : churnReverted tc = tc.values :=
        @list_map_fix Cell tc.values revertUnknown (fun v hv =>
          revertUnknown_num (hnum v hv))
      have hobs : churnObserved tc = tc.values := by
        unfold churnObserved
        rw [hrev]
        exact @list_filter_fix Cell tc.values _ (fun v hv => by
          simp
          exact isNum_ne_na (hnum v hv))
      refine ⟨?_, hobs⟩
      rw [churnTransform_eq, hrev, if_neg (by rw [hff]; simp),
        @list_map_fix Cell tc.values _ (fun v hv =>
          imputeNa_fix (isNum_ne_na (hnum v hv))), ← hff]
  -- step 4 returns the frame unchanged
  have hchurnstep : churnStep U = .ok U := by
    cases hf : U.cols.find? (fun c => c.name == "CHURN") with
    | none =>
      exfalso
      rw [List.find?_eq_none] at hf
      exact hf tc htc_mem (by simp [htc_name])
    | some uc =>
      have huc_name : uc.name = "CHURN" := by
        have := List.find?_some hf
        simpa using this
      have huc : uc = tc := huniq uc (List.mem_of_find?_eq_some hf) huc_name
      have hstep : churnStep U =
          if churnObserved uc = [] then .error (.imputerError "CHURN is all missing")
          else .ok { U with
            cols := List.map (fun d => if d.name = "CHURN" then churnTransform d else d) U.cols } := by
        unfold churnStep
        rw [hf]
      rw [hstep, huc, htc_fix.2, if_neg htc_ne]
      have hmapfix : List.map (fun d => if d.name = "CHURN" then churnTransform d else d) U.cols
          = U.cols :=
        @list_map_fix Col U.cols _ (fun u hu => by
          by_cases hn : u.name = "CHURN"
          · rw [if_pos hn, huniq u hu hn, htc_fix.1]
          · rw [if_neg hn])
      rw [hmapfix]
  -- step 5 is a no-op
  have htonum : toNumericStep U = U := by
    show { U with cols := U.cols.map toNumericCol } = U
    rw [@list_map_fix Col U.cols toNumericCol (fun c hc => by
      rcases (hcols c hc).2.2 with ⟨_, _, hfix⟩ | ⟨hi, _⟩ | ⟨hff, _⟩
      · exact hfix
      · exact toNumericCol_not_object (by rw [hi]; simp)
      · exact toNumericCol_not_object (by rw [hff]; simp))]
  -- steps 6-7 return the frame unchanged
  have himpute : imputeStep U = .ok U := by
    simp only [imputeStep]
    rw [if_neg (List.ne_nil_of_mem (List.mem_filter.mpr ⟨hnc_mem, hnc_num⟩))]
    rw [if_neg (by
      intro hany
      rw [List.any_eq_true] at hany
      obtain ⟨c, hcf, hlen⟩ := hany
      have hcm := List.mem_filter.mp hcf
      have := hnums c hcm.1 hcm.2
      simp at hlen
      exact this hlen)]
    rw [if_neg (by
      intro hany
      rw [List.any_eq_true] at hany
      obtain ⟨c, hcf, hobs⟩ := hany
      have hcm := List.mem_filter.mp hcf
      have hne := hnums c hcm.1 hcm.2
      have hall : c.values.all Cell.isNum = true := by
        rcases (hcols c hcm.1).2.2 with ⟨ho, _, _⟩ | ⟨_, hall⟩ | ⟨_, hall⟩
        · rw [ho] at hcm; simp [isNumDtype] at hcm
        · rw [List.all_eq_true] at hall ⊢
          exact fun v hv => isIntCell_isNum (hall v hv)
        · exact hall
      simp at hobs
      exact observed_ne_nil hne hall hobs)]
    have hmapfix : List.map imputeCol U.cols = U.cols :=
      @list_map_fix Col U.cols imputeCol (fun u hu => by
        rcases (hcols u hu).2.2 with ⟨ho, _, _⟩ | ⟨hi, hall⟩ | ⟨hff, hall⟩
        · exact imputeCol_object ho
        · have hnumv : ∀ v ∈ u.values, v.isIntCell = true := List.all_eq_true.mp hall
          rw [imputeCol_int hi,
            @list_map_fix Cell u.values _ (fun v hv =>
              imputeNa_fix (isNum_ne_na (isIntCell_isNum (hnumv v hv)))),
            @list_map_fix Cell u.values truncCell (fun v hv =>
              truncCell_fix (hnumv v hv)), ← hi]
        · have hnumv : ∀ v ∈ u.values, v.isNum = true := List.all_eq_true.mp hall
          rw [imputeCol_float hff,
            @list_map_fix Cell u.values _ (fun v hv =>
              imputeNa_fix (isNum_ne_na (hnumv v hv))), ← hff])
    rw [hmapfix]
  -- assemble the pipeline
  unfold clean
  rw [hset, hcap, hfill, hchurnstep]
  simp only [bind, Except.bind]
  rw [htonum]
  exact himpute

theorem isNumDtype_iff (d : Dtype) : isNumDtype d = true ↔ (d = .int64 ∨ d = .float64) := by
  cases d <;> simp [isNumDtype]

theorem churnObserved_values_ne_nil {c : Col} (h : churnObserved c ≠ []) :
    c.values ≠ [] := by
  intro hv
  apply h
  simp [churnObserved, churnReverted, hv]

theorem churnObserved_mem {c : Col} {v : Cell} (h : v ∈ churnObserved c) :
    v ≠ .na ∧ v ≠ .str "Unknown" := by
  unfold churnObserved at h
  have h2 := List.mem_filter.mp h
  refine ⟨by simpa using h2.2, ?_⟩
  have h3 := h2.1
  unfold churnReverted at h3
  obtain ⟨w, _, hw⟩ := List.mem_map.mp h3
  rw [← hw]
  exact revertUnknown_ne_unknown w

theorem churnTransform_cells {c : Col} (hobs : churnObserved c ≠ []) :
    Cell.na ∉ (churnTransform c).values ∧
    Cell.str "Unknown" ∉ (churnTransform c).values := by
  have hm := pickMode_mem (churnObserved c) hobs
  obtain ⟨hmna, hmunk⟩ := churnObserved_mem hm
  rw [churnTransform_eq]
  constructor
  · intro hmem
    simp only [List.mem_map] at hmem
    obtain ⟨w, _, hw⟩ := hmem
    exact imputeNa_ne_na hmna hw
  · intro hmem
    simp only [List.mem_map] at hmem
    obtain ⟨w, hwmem, hw⟩ := hmem
    unfold imputeNa at hw
    by_cases hna : w = .na
    · rw [if_pos hna] at hw; exact hmunk hw
    · rw [if_neg hna] at hw
      unfold churnReverted at hwmem
      obtain ⟨w2, _, hw2⟩ := List.mem_map.mp hwmem
      rw [← hw2] at hw
      exact revertUnknown_ne_unknown w2 hw

/-- An object column with no missing entry keeps the cleaned-column shape
through steps 5-7. -/
theorem object_col_cleaned (x : Col) (hcap : capName x.name = x.name)
    (huid : x.name ≠ "user_id") (hdo : x.dtype = .object)
    (hnx : Cell.na ∉ x.values) : cleanedCol (imputeCol (toNumericCol x)) := by
  cases hm : mapOptionAll parseCellNum x.values with
  | none =>
    have hfix : toNumericCol x = x := by
      unfold toNumericCol
      rw [if_pos hdo, hm]
    rw [hfix, imputeCol_object hdo]
    exact ⟨hcap, huid, Or.inl ⟨hdo, hnx, hfix⟩⟩
  | some rs =>
    have hnum : ∀ r ∈ rs, r.2.isNum = true ∧ (r.1 = true → r.2.isIntCell = true) := by
      intro r hr
      obtain ⟨v, hv, hpv⟩ := mapOptionAll_backward hm r hr
      obtain ⟨r1, r2⟩ := r
      rcases parseCellNum_cases hpv with ⟨hvna, _, _⟩ | ⟨h1, h2⟩
      · exact absurd (hvna ▸ hv) hnx
      · exact ⟨h1, h2⟩
    have hx : toNumericCol x =
        ⟨x.name, if rs.all (fun r => r.1) then .int64 else .float64, rs.map (fun r => r.2)⟩ := by
      unfold toNumericCol
      rw [if_pos hdo, hm]
    rw [hx]
    by_cases hall : rs.all (fun r => r.1) = true
    · rw [if_pos hall]
      have hints : ∀ w ∈ rs.map (fun r => r.2), w.isIntCell = true := by
        intro w hw
        obtain ⟨r, hr, hrw⟩ := List.mem_map.mp hw
        rw [← hrw]
        exact (hnum r hr).2 (List.all_eq_true.mp hall r hr)
      rw [imputeCol_int rfl]
      simp only []
      rw [@list_map_fix Cell (rs.map (fun r => r.2)) _ (fun w hw =>
        imputeNa_fix (isNum_ne_na (isIntCell_isNum (hints w hw))))]
      rw [@list_map_fix Cell (rs.map (fun r => r.2)) truncCell (fun w hw =>
        truncCell_fix (hints w hw))]
      refine ⟨hcap, huid, Or.inr (Or.inl ⟨rfl, ?_⟩)⟩
      rw [List.all_eq_true]
      exact hints
    · rw [if_neg hall]
      have hnums2 : ∀ w ∈ rs.map (fun r => r.2), w.isNum = true := by
        intro w hw
        obtain ⟨r, hr, hrw⟩ := List.mem_map.mp hw
        rw [← hrw]
        exact (hnum r hr).1
      rw [imputeCol_float rfl]
      simp only []
      rw [@list_map_fix Cell (rs.map (fun r => r.2)) _ (fun w hw =>
        imputeNa_fix (isNum_ne_na (hnums2 w hw)))]
      refine ⟨hcap, huid, Or.inr (Or.inr ⟨rfl, ?_⟩)⟩
      rw [List.all_eq_true]
      exact hnums2

/-- A float64 column of numbers-or-missing keeps the cleaned-column shape
through steps 5-7. -/
theorem float_col_cleaned (x : Col) (hcap : capName x.name = x.name)
    (huid : x.name ≠ "user_id") (hdf : x.dtype = .float64)
    (hcells : ∀ v ∈ x.values, v.isNum = true ∨ v = .na) :
    cleanedCol (imputeCol (toNumericCol x)) := by
  rw [toNumericCol_not_object (by rw [hdf]; simp), imputeCol_float hdf]
  refine ⟨hcap, huid, Or.inr (Or.inr ⟨rfl, ?_⟩)⟩
  rw [List.all_eq_true]
  intro w hw
  obtain ⟨v, hv, hvw⟩ := List.mem_map.mp hw
  rw [← hvw]
  exact imputeNa_isNum rfl (hcells v hv)

/-- An int64 column of canonical integers keeps the cleaned-column shape
through steps 5-7. -/
theorem int_col_cleaned (x : Col) (hcap : capName x.name = x.name)
    (huid : x.name ≠ "user_id") (hdi : x.dtype = .int64)
    (hcells : ∀ v ∈ x.values, v.isIntCell = true) :
    cleanedCol (imputeCol (toNumericCol x)) := by
  rw [toNumericCol_not_object (by rw [hdi]; simp), imputeCol_int hdi]
  rw [@list_map_fix Cell x.values _ (fun v hv =>
    imputeNa_fix (isNum_ne_na (isIntCell_isNum (hcells v hv))))]
  rw [@list_map_fix Cell x.values truncCell (fun v hv => truncCell_fix (hcells v hv))]
  refine ⟨hcap, huid, Or.inr (Or.inl ⟨rfl, ?_⟩)⟩
  rw [List.all_eq_true]
  exact hcells

theorem churnTransform_dtype (c : Col) :
    (churnTransform c).dtype = if c.dtype = .object then .object else .float64 := rfl

theorem cellFits_float {v : Cell} : cellFits .float64 v = true ↔ (v.isNum = true ∨ v = .na) := by
  cases v <;> simp [cellFits, Cell.isNum]

theorem cellFits_int {v : Cell} : cellFits .int64 v = true ↔ v.isIntCell = true := by
  cases v <;> simp [cellFits]

/-- Each well-formed column comes out of one cleaning pass in cleaned
shape (for the target column, provided the imputer had data to fit on). -/
theorem colPipe_cleaned (c : Col) (hwf : c.WF)
    (hch : capName c.name = "CHURN" → churnObserved (capF c) ≠ []) :
    cleanedCol (colPipe c) := by
  obtain ⟨hname, hdty, hcells⟩ := hwf
  have hcapi : capName (capName c.name) = capName c.name := capName_idem c.name
  have huid : capName c.name ≠ "user_id" := capName_ne_userid c.name
  have hfits : ∀ v ∈ c.values, cellFits c.dtype v = true := List.all_eq_true.mp hcells
  unfold colPipe
  by_cases hN : capName c.name = "CHURN"
  · have hfill : fillIf (capF c) = capF c := by
      unfold fillIf
      rw [if_neg]
      intro hcond
      exact hcond.1 (by rw [capF_name]; exact hN)
    rw [hfill]
    have hchif : churnIf (capF c) = churnTransform (capF c) := by
      unfold churnIf
      rw [if_pos (by rw [capF_name]; exact hN)]
    rw [hchif]
    have hobs : churnObserved (capF c) ≠ [] := hch hN
    have hnm : (churnTransform (capF c)).name = capName c.name := by
      rw [churnTransform_name, capF_name]
    have hmmem := pickMode_mem _ hobs
    obtain ⟨hmna, hmunk⟩ := churnObserved_mem hmmem
    obtain ⟨hna2, _⟩ := churnTransform_cells hobs
    rcases hdty with hdo | hdi | hdf
    · exact object_col_cleaned _ (by rw [hnm]; exact hcapi) (by rw [hnm]; exact huid)
        (by rw [churnTransform_dtype, capF_dtype, hdo]; rfl) hna2
    · have hints : ∀ v ∈ c.values, v.isIntCell = true := fun v hv =>
        cellFits_int.mp (by rw [← hdi]; exact hfits v hv)
      have hvals : (churnTransform (capF c)).values = c.values := by
        rw [churnTransform_eq]
        show ((capF c).values.map revertUnknown).map _ = c.values
        rw [capF_values,
          @list_map_fix Cell c.values revertUnknown (fun v hv =>
            revertUnknown_num (isIntCell_isNum (hints v hv))),
          @list_map_fix Cell c.values _ (fun v hv =>
            imputeNa_fix (isNum_ne_na (isIntCell_isNum (hints v hv))))]
      exact float_col_cleaned _ (by rw [hnm]; exact hcapi) (by rw [hnm]; exact huid)
        (by rw [churnTransform_dtype, capF_dtype, hdi]; rfl)
        (by
          rw [hvals]
          exact fun v hv => Or.inl (isIntCell_isNum (hints v hv)))
    · have hnumna : ∀ v ∈ c.values, v.isNum = true ∨ v = .na := fun v hv =>
        cellFits_float.mp (by rw [← hdf]; exact hfits v hv)
      have hmnum : (pickMode (churnObserved (capF c))).isNum = true := by
        have h2 := List.mem_filter.mp hmmem
        have h3 := h2.1
        unfold churnReverted at h3
        rw [capF_values] at h3
        obtain ⟨w, hwmem, hw⟩ := List.mem_map.mp h3
        rcases hnumna w hwmem with hwn | hwn
        · rw [← hw, revertUnknown_num hwn]; exact hwn
        · exfalso
          apply hmna
          rw [← hw, hwn]
          rfl
      refine float_col_cleaned _ (by rw [hnm]; exact hcapi) (by rw [hnm]; exact huid)
        (by rw [churnTransform_dtype, capF_dtype, hdf]; rfl) ?_
      intro v hv
      rw [churnTransform_eq] at hv
      have hv2 : v ∈ ((capF c).values.map revertUnknown).map
          (imputeNa (pickMode (churnObserved (capF c)))) := hv
      obtain ⟨w, hwmem, hw⟩ := List.mem_map.mp hv2
      rw [capF_values] at hwmem
      obtain ⟨w2, hw2mem, hw2⟩ := List.mem_map.mp hwmem
      left
      rw [← hw]
      apply imputeNa_isNum hmnum
      rcases hnumna w2 hw2mem with hwn | hwn
      · left; rw [← hw2, revertUnknown_num hwn]; exact hwn
      · right; rw [← hw2, hwn]; rfl
  · have hchif : ∀ y : Col, y.name = capName c.name → churnIf y = y := by
      intro y hy
      unfold churnIf
      rw [if_neg (by rw [hy]; exact hN)]
    rcases hdty with hdo | hdi | hdf
    · have hfill : fillIf (capF c) =
          { capF c with values := (capF c).values.map fillCell } := by
        unfold fillIf
        rw [if_pos]
        exact ⟨by rw [capF_name]; exact hN, Or.inl (by rw [capF_dtype]; exact hdo)⟩
      rw [hfill, hchif _ (by rw [capF_name])]
      refine object_col_cleaned _ (by rw [capF_name]; exact hcapi)
        (by rw [capF_name]; exact huid) (by rw [capF_dtype]; exact hdo) ?_
      intro hmem
      obtain ⟨w, _, hw⟩ := List.mem_map.mp hmem
      exact fillCell_ne_na w hw
    · have hfill : fillIf (capF c) = capF c := by
        unfold fillIf
        rw [if_neg]
        intro hcond
        rcases hcond.2 with h2 | h2 <;>
          (rw [capF_dtype, hdi] at h2; exact Dtype.noConfusion h2)
      rw [hfill, hchif _ (by rw [capF_name])]
      exact int_col_cleaned _ (by rw [capF_name]; exact hcapi)
        (by rw [capF_name]; exact huid) (by rw [capF_dtype]; exact hdi)
        (fun v hv => cellFits_int.mp (by rw [← hdi]; exact hfits v hv))
    · have hfill : fillIf (capF c) = capF c := by
        unfold fillIf
        rw [if_neg]
        intro hcond
        rcases hcond.2 with h2 | h2 <;>
          (rw [capF_dtype, hdf] at h2; exact Dtype.noConfusion h2)
      rw [hfill, hchif _ (by rw [capF_name])]
      exact float_col_cleaned _ (by rw [capF_name]; exact hcapi)
        (by rw [capF_name]; exact huid) (by rw [capF_dtype]; exact hdf)
        (fun v hv => cellFits_float.mp (by rw [← hdf]; exact hfits v hv))

/-- One successful cleaning pass on a well-formed frame produces a frame in
cleaned shape. -/
theorem clean_cleanedFrame {df U : DF} (hwf : df.WF) (h : clean df = .ok U) :
    cleanedFrame U := by
  obtain ⟨df4, hch, himp⟩ := clean_ok h
  obtain ⟨ch, hfind, hobs, hdf4⟩ := churnStep_ok hch
  obtain ⟨hD1, hD2, hU⟩ := imputeStep_ok himp
  have hA_sub := setIndexStep_sub df
  have hA_wf : ∀ c ∈ (setIndexStep df).cols, c.WF := fun c hc => hwf.1 c (hA_sub.subset hc)
  have hA_nodup : ((setIndexStep df).cols.map (fun c => capName c.name)).Nodup :=
    hwf.2.sublist (hA_sub.map (fun c => capName c.name))
  have hCcols : (fillUnknownStep (capStep (setIndexStep df))).cols =
      (setIndexStep df).cols.map (fun c => fillIf (capF c)) := by
    rw [fillStep_cols, capStep_cols, List.map_map]
    rfl
  have hCnames : (fillUnknownStep (capStep (setIndexStep df))).cols.map (fun c => c.name) =
      (setIndexStep df).cols.map (fun c => capName c.name) := by
    rw [hCcols, List.map_map]
    exact List.map_congr_left (fun c hc => by
      show (fillIf (capF c)).name = capName c.name
      rw [fillIf_name, capF_name])
  have hchname : ch.name = "CHURN" := by simpa using List.find?_some hfind
  have hCnodup : ((fillUnknownStep (capStep (setIndexStep df))).cols.map
      (fun c => c.name)).Nodup := by
    rw [hCnames]; exact hA_nodup
  have hUcols : U.cols = (setIndexStep df).cols.map colPipe := by
    have h1 : U.cols = List.map imputeCol (List.map toNumericCol
        (List.map churnIf (fillUnknownStep (capStep (setIndexStep df))).cols)) := by
      rw [hU, hdf4]
      rfl
    rw [h1, hCcols]
    simp only [List.map_map]
    rfl
  have hUnames : U.cols.map (fun c => c.name) =
      (setIndexStep df).cols.map (fun c => capName c.name) := by
    rw [hUcols, List.map_map]
    exact List.map_congr_left (fun c hc => colPipe_name c)
  have hchurn_obs : ∀ c ∈ (setIndexStep df).cols, capName c.name = "CHURN" →
      churnObserved (capF c) ≠ [] := by
    intro c hc hcn
    have hmem : fillIf (capF c) ∈ (fillUnknownStep (capStep (setIndexStep df))).cols := by
      rw [hCcols]
      exact List.mem_map_of_mem _ hc
    have hname2 : (fillIf (capF c)).name = "CHURN" := by
      rw [fillIf_name, capF_name]; exact hcn
    have heq : fillIf (capF c) = ch :=
      List.inj_on_of_nodup_map hCnodup hmem (List.mem_of_find?_eq_some hfind)
        (by rw [hname2, hchname])
    have hfill : fillIf (capF c) = capF c := by
      unfold fillIf
      rw [if_neg]
      intro hcond
      exact hcond.1 (by rw [capF_name]; exact hcn)
    rw [← hfill, heq]
    exact hobs
  refine ⟨?_, ?_, ?_, ?_, ?_⟩
  · intro u hu
    rw [hUcols] at hu
    obtain ⟨c, hc, hcu⟩ := List.mem_map.mp hu
    rw [← hcu]
    exact colPipe_cleaned c (hA_wf c hc) (hchurn_obs c hc)
  · rw [hUnames]
    exact hA_nodup
  · -- the target column of U
    have hchif : churnIf ch = churnTransform ch := by
      unfold churnIf; rw [if_pos hchname]
    have htc_mem : imputeCol (toNumericCol (churnTransform ch)) ∈ U.cols := by
      have h1 : U.cols = List.map imputeCol (List.map toNumericCol
          (List.map churnIf (fillUnknownStep (capStep (setIndexStep df))).cols)) := by
        rw [hU, hdf4]
        rfl
      rw [h1, ← hchif]
      exact List.mem_map_of_mem imputeCol (List.mem_map_of_mem toNumericCol
        (List.mem_map_of_mem churnIf (List.mem_of_find?_eq_some hfind)))
    refine ⟨imputeCol (toNumericCol (churnTransform ch)), htc_mem, ?_, ?_, ?_⟩
    · rw [imputeCol_name, toNumericCol_name, churnTransform_name]
      exact hchname
    · intro hnil
      have hlen : (imputeCol (toNumericCol (churnTransform ch))).values.length =
          ch.values.length := by
        rw [imputeCol_length, toNumericCol_length, churnTransform_length]
      rw [hnil] at hlen
      exact churnObserved_values_ne_nil hobs (List.eq_nil_of_length_eq_zero hlen.symm)
    · intro hto
      have hyobj : (toNumericCol (churnTransform ch)).dtype = .object := by
        by_cases hyi : (toNumericCol (churnTransform ch)).dtype = .int64
        · rw [imputeCol_dtype, if_pos hyi] at hto; exact Dtype.noConfusion hto
        · by_cases hyf : (toNumericCol (churnTransform ch)).dtype = .float64
          · rw [imputeCol_dtype, if_neg hyi, if_pos hyf] at hto; exact Dtype.noConfusion hto
          · rw [imputeCol_dtype, if_neg hyi, if_neg hyf] at hto; exact hto
      obtain ⟨hyfix, hyd⟩ := toNumericCol_object_out hyobj
      rw [imputeCol_object hyobj, hyfix]
      exact (churnTransform_cells hobs).2
  · obtain ⟨d, hd⟩ := List.exists_mem_of_ne_nil _ hD1
    have hdm := List.mem_filter.mp hd
    refine ⟨imputeCol d, ?_, ?_⟩
    · rw [hU]
      exact List.mem_map_of_mem imputeCol hdm.1
    · rcases (isNumDtype_iff d.dtype).mp hdm.2 with hdi | hdf
      · rw [isNumDtype_iff, imputeCol_dtype, if_pos hdi]
        exact Or.inl rfl
      · have hdi : d.dtype ≠ .int64 := by rw [hdf]; simp
        rw [isNumDtype_iff, imputeCol_dtype, if_neg hdi, if_pos hdf]
        exact Or.inr rfl
  · intro u hu hnum
    rw [hU] at hu
    obtain ⟨d, hdmem, hdu⟩ := List.mem_map.mp hu
    have hdnum : isNumDtype d.dtype = true := by
      by_cases hn : isNumDtype d.dtype = true
      · exact hn
      · exfalso
        have hfix : imputeCol d = d := imputeCol_not_num (by
          cases hx : isNumDtype d.dtype
          · rfl
          · exact absurd hx hn)
        rw [hfix] at hdu
        rw [← hdu] at hnum
        exact hn hnum
    have hlen := (hD2 d hdmem hdnum).1
    intro hnil
    apply hlen
    rw [← imputeCol_length d, hdu, hnil]
    rfl

/-- C2 counterexample: on the well-formed one-column frame whose CHURN
values are the strings "0", "1", "0", the first cleaning pass coerces the
target to int64 (step 5), but the second pass sends the now-numeric target
through the most-frequent imputer, whose output is float64 and is no longer
cast back — so `clean (clean T)` differs from `clean T`, structurally and
under the pandas `equals` notion (int64 vs float64 dtype). -/
theorem clean_not_idempotent :
    (⟨none, [⟨"CHURN", Dtype.object,
        [Cell.str "0", Cell.str "1", Cell.str "0"]⟩]⟩ : DF).WF ∧
    clean ⟨none, [⟨"CHURN", Dtype.object, [Cell.str "0", Cell.str "1", Cell.str "0"]⟩]⟩ =
      .ok ⟨none, [⟨"CHURN", Dtype.int64,
        [Cell.num ⟨0, 1⟩, Cell.num ⟨1, 1⟩, Cell.num ⟨0, 1⟩]⟩]⟩ ∧
    clean ⟨none, [⟨"CHURN", Dtype.int64,
        [Cell.num ⟨0, 1⟩, Cell.num ⟨1, 1⟩, Cell.num ⟨0, 1⟩]⟩]⟩ =
      .ok ⟨none, [⟨"CHURN", Dtype.float64,
        [Cell.num ⟨0, 1⟩, Cell.num ⟨1, 1⟩, Cell.num ⟨0, 1⟩]⟩]⟩ ∧
    (⟨none, [⟨"CHURN", Dtype.float64,
        [Cell.num ⟨0, 1⟩, Cell.num ⟨1, 1⟩, Cell.num ⟨0, 1⟩]⟩]⟩ : DF) ≠
      ⟨none, [⟨"CHURN", Dtype.int64,
        [Cell.num ⟨0, 1⟩, Cell.num ⟨1, 1⟩, Cell.num ⟨0, 1⟩]⟩]⟩ ∧
    DF.equiv
      ⟨none, [⟨"CHURN", Dtype.float64,
        [Cell.num ⟨0, 1⟩, Cell.num ⟨1, 1⟩, Cell.num ⟨0, 1⟩]⟩]⟩
      ⟨none, [⟨"CHURN", Dtype.int64,
        [Cell.num ⟨0, 1⟩, Cell.num ⟨1, 1⟩, Cell.num ⟨0, 1⟩]⟩]⟩ = false :=
  ⟨by decide, by decide, by decide, by decide, by decide⟩

/-- C2 (amended): cleaning is idempotent on every well-formed table on
which it is defined and whose cleaned target column is not integer-typed:
if `clean T = clean T'` succeeds and the CHURN column of the result is not
int64, a second pass returns the result unchanged.  (The counterexample
above forces the int64 exception: an integer-coerced target is turned into
float64 by the target imputer of the second pass.) -/
theorem clean_idempotent_unless_int_target (df U : DF) (hwf : df.WF)
    (h : clean df = .ok U)
    (hchurn : ∀ u ∈ U.cols, u.name = "CHURN" → u.dtype ≠ .int64) :
    clean U = .ok U :=
  cleanedFrame_fix U (clean_cleanedFrame hwf h) hchurn

theorem clean_idempotent_witness :
    clean ⟨none, [⟨"CHURN", Dtype.object, [Cell.str "Yes", Cell.str "Yes", Cell.str "Yes"]⟩,
      ⟨"MONTANT", Dtype.int64,
        [Cell.num ⟨1, 1⟩, Cell.num ⟨2, 1⟩, Cell.num ⟨3, 1⟩]⟩]⟩ =
      .ok ⟨none, [⟨"CHURN", Dtype.object, [Cell.str "Yes", Cell.str "Yes", Cell.str "Yes"]⟩,
        ⟨"MONTANT", Dtype.int64,
          [Cell.num ⟨1, 1⟩, Cell.num ⟨2, 1⟩, Cell.num ⟨3, 1⟩]⟩]⟩ :=
  clean_idempotent_unless_int_target
    ⟨none, [⟨"CHURN", Dtype.object, [Cell.str "Yes", Cell.na, Cell.str "Yes"]⟩,
      ⟨"MONTANT", Dtype.int64, [Cell.num ⟨1, 1⟩, Cell.num ⟨2, 1⟩, Cell.num ⟨3, 1⟩]⟩]⟩
    ⟨none, [⟨"CHURN", Dtype.object, [Cell.str "Yes", Cell.str "Yes", Cell.str "Yes"]⟩,
      ⟨"MONTANT", Dtype.int64, [Cell.num ⟨1, 1⟩, Cell.num ⟨2, 1⟩, Cell.num ⟨3, 1⟩]⟩]⟩
    (by decide) (by decide) (by decide)
